import Mathlib

/-!
Verification development for the openrgb-sdk protocol engine.

Shallow embedding of the core protocol code:
  * the transport framer of the socket readable handler in `src/client.ts`
    (lines 79-123),
  * the request/response correlator `resolve` in `src/client.ts` (488-504),
  * the protocol-version negotiation in `Client.connect` (126-142) together
    with the constructor defaults (30-42),
  * the binary codec: `readString`, `readModes`, `readColor` in
    `src/device.ts` and `sendMode` / `pack_string` / `pack_color_list` in
    `src/client.ts`.

Byte buffers are modelled as `List Nat` whose entries are byte values;
little-endian multi-byte reads mirror `Buffer.readUInt32LE` and
`Buffer.readUInt16LE`.
-/

namespace OpenRGB

/-! ## Byte-level primitives -/

/-- Little-endian 16-bit encoding of a natural number, as produced by
`Buffer.writeUInt16LE` / bufferpack `<H` (truncating to 16 bits). -/
def le16 (n : Nat) : List Nat := [n % 256, n / 256 % 256]

/-- Little-endian 32-bit encoding, as produced by `Buffer.writeUInt32LE` /
bufferpack `<I` (truncating to 32 bits). -/
def le32 (n : Nat) : List Nat :=
  [n % 256, n / 256 % 256, n / 2 ^ 16 % 256, n / 2 ^ 24 % 256]

/-- Model of `buffer.readUInt16LE(o)` over a byte list. -/
def readUInt16LE (b : List Nat) (o : Nat) : Nat :=
  b.getD o 0 + 2 ^ 8 * b.getD (o + 1) 0

/-- Model of `buffer.readUInt32LE(o)` over a byte list. -/
def readUInt32LE (b : List Nat) (o : Nat) : Nat :=
  b.getD o 0 + 2 ^ 8 * b.getD (o + 1) 0 + 2 ^ 16 * b.getD (o + 2) 0 +
    2 ^ 24 * b.getD (o + 3) 0

/-- Two's-complement reading of a 32-bit word, modelling
`buffer.readInt32LE`. -/
def toSigned32 (n : Nat) : Int :=
  if n < 2 ^ 31 then (n : Int) else (n : Int) - 2 ^ 32

/-- Model of `buffer.readInt32LE(o)`. -/
def readInt32LE (b : List Nat) (o : Nat) : Int :=
  toSigned32 (readUInt32LE b o)

@[simp] theorem le16_length (n : Nat) : (le16 n).length = 2 := rfl

@[simp] theorem le32_length (n : Nat) : (le32 n).length = 4 := rfl

theorem readUInt32LE_le32_append (n : Nat) (rest : List Nat) (h : n < 2 ^ 32) :
    readUInt32LE (le32 n ++ rest) 0 = n := by
  simp [readUInt32LE, le32, List.getD]
  omega

theorem readUInt16LE_le16_append (n : Nat) (rest : List Nat) (h : n < 2 ^ 16) :
    readUInt16LE (le16 n ++ rest) 0 = n := by
  simp [readUInt16LE, le16, List.getD]
  omega

theorem getD_drop (b : List Nat) (o i : Nat) :
    (b.drop o).getD i 0 = b.getD (o + i) 0 := by
  simp [List.getD, List.getElem?_drop]

theorem readUInt32LE_drop (b : List Nat) (o : Nat) :
    readUInt32LE b o = readUInt32LE (b.drop o) 0 := by
  simp [readUInt32LE, getD_drop]

theorem readUInt16LE_drop (b : List Nat) (o : Nat) :
    readUInt16LE b o = readUInt16LE (b.drop o) 0 := by
  simp [readUInt16LE, getD_drop]

theorem getD_append_left (l₁ l₂ : List Nat) (i : Nat) (h : i < l₁.length) :
    (l₁ ++ l₂).getD i 0 = l₁.getD i 0 := by
  simp [List.getD, List.getElem?_append_left h]

theorem readUInt32LE_append_left (l₁ l₂ : List Nat) (o : Nat)
    (h : o + 4 ≤ l₁.length) :
    readUInt32LE (l₁ ++ l₂) o = readUInt32LE l₁ o := by
  unfold readUInt32LE
  rw [getD_append_left _ _ o (by omega), getD_append_left _ _ (o + 1) (by omega),
    getD_append_left _ _ (o + 2) (by omega), getD_append_left _ _ (o + 3) (by omega)]

theorem readUInt16LE_append_left (l₁ l₂ : List Nat) (o : Nat)
    (h : o + 2 ≤ l₁.length) :
    readUInt16LE (l₁ ++ l₂) o = readUInt16LE l₁ o := by
  unfold readUInt16LE
  rw [getD_append_left _ _ o (by omega), getD_append_left _ _ (o + 1) (by omega)]

/-- Prefix relation on byte lists, written explicitly. -/
def IsPre (b s : List Nat) : Prop := ∃ t, b ++ t = s

theorem IsPre.length_le {b s : List Nat} (h : IsPre b s) : b.length ≤ s.length := by
  obtain ⟨t, rfl⟩ := h
  simp

theorem take_eq_of_isPre {b s : List Nat} (h : IsPre b s) {n : Nat}
    (hn : n ≤ b.length) : s.take n = b.take n := by
  obtain ⟨t, rfl⟩ := h
  rw [List.take_append_of_le_length hn]

theorem readUInt32LE_eq_of_isPre {b s : List Nat} (h : IsPre b s) {o : Nat}
    (ho : o + 4 ≤ b.length) : readUInt32LE s o = readUInt32LE b o := by
  obtain ⟨t, rfl⟩ := h
  exact readUInt32LE_append_left b t o ho

/-! ## Packets and the wire header

Mirrors `Client.encodeHeader` / `Client.decodeHeader` (`src/client.ts`
361-380): 16-byte header, ASCII magic `ORGB`, then `deviceId`, `commandId`
and payload `length` as little-endian `u32`. -/

/-- ASCII bytes of the magic string `ORGB`. -/
def magicBytes : List Nat := [0x4f, 0x52, 0x47, 0x42]

structure Packet where
  deviceId : Nat
  commandId : Nat
  payload : List Nat
  deriving DecidableEq, Repr

/-- Mirrors `Client.encodeHeader` (`src/client.ts` 361-370). -/
def encodeHeader (commandId length deviceId : Nat) : List Nat :=
  magicBytes ++ le32 deviceId ++ le32 commandId ++ le32 length

/-- Full wire form of a packet: header followed by payload. -/
def encodePacket (p : Packet) : List Nat :=
  encodeHeader p.commandId p.payload.length p.deviceId ++ p.payload

/-- Concatenation of the wire forms of a list of packets. -/
def encodeStream (ps : List Packet) : List Nat :=
  (ps.map encodePacket).flatten

/-- A packet that fits the wire header fields. -/
def WFPacket (p : Packet) : Prop :=
  p.deviceId < 2 ^ 32 ∧ p.commandId < 2 ^ 32 ∧ p.payload.length < 2 ^ 32

instance (p : Packet) : Decidable (WFPacket p) := by
  unfold WFPacket; infer_instance

/-- Mirrors `Client.decodeHeader` (`src/client.ts` 375-380) plus the
`buffer.slice(16)` payload stripping used by `resolve`. -/
def decodePacket (b : List Nat) : Packet :=
  { deviceId := readUInt32LE b 4
    commandId := readUInt32LE b 8
    payload := b.drop 16 }

@[simp] theorem encodeHeader_length (c l d : Nat) :
    (encodeHeader c l d).length = 16 := by
  simp [encodeHeader, magicBytes]

@[simp] theorem encodePacket_length (p : Packet) :
    (encodePacket p).length = 16 + p.payload.length := by
  simp [encodePacket]

theorem encodeStream_cons (p : Packet) (ps : List Packet) :
    encodeStream (p :: ps) = encodePacket p ++ encodeStream ps := by
  simp [encodeStream]

@[simp] theorem encodeStream_nil : encodeStream [] = [] := rfl

theorem encodeStream_append (ps qs : List Packet) :
    encodeStream (ps ++ qs) = encodeStream ps ++ encodeStream qs := by
  simp [encodeStream]

theorem encodePacket_take_four (p : Packet) (rest : List Nat) :
    ((encodePacket p ++ rest).take 4) = magicBytes := by
  simp [encodePacket, encodeHeader, magicBytes, le32]

theorem encodePacket_readLength (p : Packet) (rest : List Nat)
    (h : p.payload.length < 2 ^ 32) :
    readUInt32LE (encodePacket p ++ rest) 12 = p.payload.length := by
  have hshape : encodePacket p ++ rest =
      (magicBytes ++ le32 p.deviceId ++ le32 p.commandId) ++
        (le32 p.payload.length ++ (p.payload ++ rest)) := by
    simp [encodePacket, encodeHeader]
  have hlen : (magicBytes ++ le32 p.deviceId ++ le32 p.commandId).length = 12 := by
    simp [magicBytes]
  rw [hshape, readUInt32LE_drop, ← hlen, List.drop_left,
    readUInt32LE_le32_append _ _ h]

theorem decodePacket_encodePacket (p : Packet) (h : WFPacket p) :
    decodePacket (encodePacket p) = p := by
  obtain ⟨hd, hc, hl⟩ := h
  have hdev : readUInt32LE (encodePacket p) 4 = p.deviceId := by
    have hshape : encodePacket p =
        magicBytes ++ (le32 p.deviceId ++
          (le32 p.commandId ++ le32 p.payload.length ++ p.payload)) := by
      simp [encodePacket, encodeHeader]
    have h4 : magicBytes.length = 4 := rfl
    rw [hshape, readUInt32LE_drop, ← h4, List.drop_left]
    simp only [List.append_assoc]
    rw [readUInt32LE_le32_append _ _ hd]
  have hcmd : readUInt32LE (encodePacket p) 8 = p.commandId := by
    have hshape : encodePacket p =
        (magicBytes ++ le32 p.deviceId) ++
          (le32 p.commandId ++ (le32 p.payload.length ++ p.payload)) := by
      simp [encodePacket, encodeHeader]
    have h8 : (magicBytes ++ le32 p.deviceId).length = 8 := by simp [magicBytes]
    rw [hshape, readUInt32LE_drop, ← h8, List.drop_left]
    rw [readUInt32LE_le32_append _ _ hc]
  have hpl : (encodePacket p).drop 16 = p.payload := by
    have h16 : (encodeHeader p.commandId p.payload.length p.deviceId).length = 16 :=
      encodeHeader_length _ _ _
    rw [encodePacket, ← h16, List.drop_left]
  simp [decodePacket, hdev, hcmd, hpl]

/-! ## Transport framer

Shallow embedding of the `readable` handler installed by `Client.connect`
(`src/client.ts` 79-123).  The socket is modelled by the list of bytes that
have arrived but have not yet been consumed by `socket.read`; `socket.read(n)`
returns `none` when fewer than `n` bytes are buffered and otherwise consumes
exactly `n` bytes.  The handler is modelled on the framing path in which a
pending request is registered (`this.resolver[0]` exists), so the saved
header (`this.resolver[0].header`) is part of the state and every completed
packet buffer is handed to `resolve`; the emitted buffers are collected in a
list. -/

/-- Model of `socket.read(n)`: `none` when fewer than `n` bytes are
buffered, otherwise the `n` consumed bytes and the remaining buffer. -/
def readBytes (b : List Nat) (n : Nat) : Option (List Nat × List Nat) :=
  if n ≤ b.length then some (b.take n, b.drop n) else none

structure FramerState where
  /-- Bytes buffered on the socket, not yet consumed by `socket.read`. -/
  buf : List Nat
  /-- `this.currentPacketLength`. -/
  currentPacketLength : Nat
  /-- The saved header `this.resolver[0].header`. -/
  header : List Nat
  deriving DecidableEq, Repr

/-- Result of one pass of the `while(true)` body: either the handler
returns (suspends), or the body completes and loops again, possibly having
emitted completed packet buffers. -/
inductive StepRes where
  | ret (s : FramerState)
  | cont (s : FramerState) (out : List (List Nat))
  deriving DecidableEq, Repr

/-- One pass of the `while(true)` body of the readable handler
(`src/client.ts` 82-122), faithfully: header phase (when
`currentPacketLength == 0`): read 16 bytes or return; on bad magic return
(the 16 bytes stay consumed); read the length field; a zero-length packet is
emitted at once; otherwise the header is saved.  Payload phase (when
`currentPacketLength > 0`): read `currentPacketLength` bytes or return; on
success emit `header ++ payload` and reset `currentPacketLength`. -/
def loopIter (s : FramerState) : StepRes :=
  if s.currentPacketLength = 0 then
    match readBytes s.buf 16 with
    | none => .ret s
    | some (hdr, rest) =>
      if hdr.take 4 = magicBytes then
        let len := readUInt32LE hdr 12
        if len = 0 then
          .cont ⟨rest, 0, s.header⟩ [hdr]
        else
          match readBytes rest len with
          | none => .ret ⟨rest, len, hdr⟩
          | some (pl, rest₂) => .cont ⟨rest₂, 0, hdr⟩ [hdr ++ pl]
      else
        .ret ⟨rest, 0, s.header⟩
  else
    match readBytes s.buf s.currentPacketLength with
    | none => .ret s
    | some (pl, rest) => .cont ⟨rest, 0, s.header⟩ [s.header ++ pl]

/-- The `while(true)` drain loop, with fuel.  Every `cont` pass consumes at
least one buffered byte, so any fuel exceeding `buf.length` lets the loop
run until the handler returns. -/
def drain : Nat → FramerState → FramerState × List (List Nat)
  | 0, s => (s, [])
  | fuel + 1, s =>
    match loopIter s with
    | .ret s' => (s', [])
    | .cont s' out =>
      let r := drain fuel s'
      (r.1, out ++ r.2)

/-- One data-arrival notification: the chunk is appended to the socket
buffer and the readable handler runs its drain loop to completion. -/
def feed (s : FramerState) (chunk : List Nat) : FramerState × List (List Nat) :=
  drain (s.buf.length + chunk.length + 17) { s with buf := s.buf ++ chunk }

/-- Deliver a sequence of chunks, one notification each, collecting all
emitted packet buffers in order. -/
def feedAll : FramerState → List (List Nat) → FramerState × List (List Nat)
  | s, [] => (s, [])
  | s, c :: cs =>
    let r₁ := feed s c
    let r₂ := feedAll r₁.1 cs
    (r₂.1, r₁.2 ++ r₂.2)

/-- State right after `connect` installs the handler: nothing buffered,
`currentPacketLength = 0` (constructor, `src/client.ts` 39). -/
def initFramer : FramerState := ⟨[], 0, []⟩

/-- The ordered sequence of packet buffers the framer hands to `resolve`
when the given chunks arrive as successive notifications. -/
def processNotifications (chunks : List (List Nat)) : List (List Nat) :=
  (feedAll initFramer chunks).2

/-! ### Reference machine

A one-buffer greedy packet extractor used as the specification the framer
is proved lockstep-equivalent to on valid streams. -/

/-- Extract one complete packet from the front of the buffer, if a full
well-formed header and its full payload are present. -/
def refStep (b : List Nat) : Option (List Nat × List Nat) :=
  if 16 ≤ b.length ∧ b.take 4 = magicBytes ∧ 16 + readUInt32LE b 12 ≤ b.length then
    some (b.take (16 + readUInt32LE b 12), b.drop (16 + readUInt32LE b 12))
  else none

instance (b : List Nat) :
    Decidable (16 ≤ b.length ∧ b.take 4 = magicBytes ∧
      16 + readUInt32LE b 12 ≤ b.length) := by
  infer_instance

/-- Greedy extraction loop of the reference machine, with fuel. -/
def refRun : Nat → List Nat → List (List Nat) × List Nat
  | 0, b => ([], b)
  | fuel + 1, b =>
    match refStep b with
    | none => ([], b)
    | some (pkt, b') =>
      let r := refRun fuel b'
      (pkt :: r.1, r.2)

/-- Abstraction of a framer state to the reference buffer: a saved header
whose payload is still pending is logically still part of the buffer. -/
def alphaBuf (s : FramerState) : List Nat :=
  if s.currentPacketLength = 0 then s.buf else s.header ++ s.buf

/-- Consistency of a framer state: whenever a payload is pending, the saved
header is a full 16-byte header whose magic matched and whose length field
is the pending length. -/
def FramerInv (s : FramerState) : Prop :=
  s.currentPacketLength ≠ 0 →
    s.header.length = 16 ∧ s.header.take 4 = magicBytes ∧
      readUInt32LE s.header 12 = s.currentPacketLength

/-- A buffer that is a prefix of some well-formed packet stream. -/
def AlignedBuf (b : List Nat) : Prop :=
  ∃ qs : List Packet, (∀ p ∈ qs, WFPacket p) ∧ IsPre b (encodeStream qs)

/-! ### List bookkeeping helpers -/

theorem take_append_len (l₁ l₂ : List Nat) (n : Nat) :
    (l₁ ++ l₂).take (l₁.length + n) = l₁ ++ l₂.take n := by
  induction l₁ with
  | nil => simp
  | cons a t ih =>
    rw [show (a :: t).length + n = (t.length + n) + 1 by simp; omega]
    simp [ih]

theorem drop_append_len (l₁ l₂ : List Nat) (n : Nat) :
    (l₁ ++ l₂).drop (l₁.length + n) = l₂.drop n := by
  induction l₁ with
  | nil => simp
  | cons a t ih =>
    rw [show (a :: t).length + n = (t.length + n) + 1 by simp; omega]
    simp [ih]

theorem drop_append_le (l₁ l₂ : List Nat) (n : Nat) (h : n ≤ l₁.length) :
    (l₁ ++ l₂).drop n = l₁.drop n ++ l₂ := by
  induction l₁ generalizing n with
  | nil =>
    have : n = 0 := by simpa using h
    simp [this]
  | cons a t ih =>
    match n with
    | 0 => simp
    | n + 1 =>
      simp only [List.cons_append, List.drop_succ_cons]
      exact ih n (by simpa using h)

theorem getD_take (b : List Nat) (n i : Nat) (h : i < n) :
    (b.take n).getD i 0 = b.getD i 0 := by
  induction b generalizing n i with
  | nil => simp
  | cons a t ih =>
    match n, i with
    | n + 1, 0 => simp [List.getD]
    | n + 1, i + 1 =>
      simp only [List.take_succ_cons]
      have := ih n i (by omega)
      simpa [List.getD] using this

theorem readUInt32LE_take (b : List Nat) (n o : Nat) (h : o + 4 ≤ n) :
    readUInt32LE (b.take n) o = readUInt32LE b o := by
  unfold readUInt32LE
  rw [getD_take _ _ _ (by omega), getD_take _ _ _ (by omega),
    getD_take _ _ _ (by omega), getD_take _ _ _ (by omega)]

/-! ### Facts about aligned buffers -/

theorem alignedBuf_head {b : List Nat} (h : AlignedBuf b) (h16 : 16 ≤ b.length) :
    ∃ (p : Packet) (ps : List Packet),
      WFPacket p ∧ (∀ q ∈ ps, WFPacket q) ∧
      IsPre b (encodePacket p ++ encodeStream ps) ∧
      b.take 4 = magicBytes ∧ readUInt32LE b 12 = p.payload.length := by
  obtain ⟨qs, hwf, hpre⟩ := h
  match qs with
  | [] =>
    obtain ⟨t, ht⟩ := hpre
    rw [encodeStream_nil] at ht
    have hb : b = [] := (List.append_eq_nil.mp ht).1
    rw [hb] at h16
    simp at h16
  | p :: ps =>
    rw [encodeStream_cons] at hpre
    refine ⟨p, ps, hwf p (by simp), fun q hq => hwf q (by simp [hq]), hpre, ?_, ?_⟩
    · rw [take_eq_of_isPre hpre (by omega) |>.symm]
      exact encodePacket_take_four p (encodeStream ps)
    · have h1 : readUInt32LE b 12 =
          readUInt32LE (encodePacket p ++ encodeStream ps) 12 :=
        (readUInt32LE_eq_of_isPre hpre (by omega)).symm
      rw [h1, encodePacket_readLength p _ (hwf p (by simp)).2.2]

theorem alignedBuf_extract {b : List Nat} {p : Packet} {ps : List Packet}
    (hpre : IsPre b (encodePacket p ++ encodeStream ps))
    (hwfs : ∀ q ∈ ps, WFPacket q)
    (hfull : 16 + p.payload.length ≤ b.length) :
    b.take (16 + p.payload.length) = encodePacket p ∧
      IsPre (b.drop (16 + p.payload.length)) (encodeStream ps) ∧
      AlignedBuf (b.drop (16 + p.payload.length)) := by
  obtain ⟨t, ht⟩ := hpre
  have hlen : (encodePacket p).length = 16 + p.payload.length := encodePacket_length p
  have htake : b.take (16 + p.payload.length) = encodePacket p := by
    have := congrArg (List.take (16 + p.payload.length)) ht
    rw [List.take_append_of_le_length hfull] at this
    rw [this, ← hlen, List.take_left]
  have hdrop : b.drop (16 + p.payload.length) ++ t = encodeStream ps := by
    have hcongr := congrArg (List.drop (16 + p.payload.length)) ht
    rw [drop_append_le b t _ hfull] at hcongr
    rw [hcongr]
    rw [← hlen, List.drop_left]
  exact ⟨htake, ⟨t, hdrop⟩, ps, hwfs, t, hdrop⟩

theorem refStep_short {b : List Nat} (h : b.length < 16) : refStep b = none := by
  unfold refStep
  rw [if_neg]
  intro hc
  omega

/-! ### Lockstep simulation

On a buffer aligned with a well-formed packet stream, the drain loop of the
readable handler and the greedy reference extractor take exactly the same
steps and emit the same buffers; the handler, once it returns, has no
complete packet left buffered. -/

theorem lockstep (fuel : Nat) :
    ∀ s : FramerState,
    s.buf.length < fuel → FramerInv s → AlignedBuf (alphaBuf s) →
    FramerInv (drain fuel s).1 ∧
    refRun fuel (alphaBuf s) = ((drain fuel s).2, alphaBuf (drain fuel s).1) ∧
    refStep (alphaBuf (drain fuel s).1) = none ∧
    AlignedBuf (alphaBuf (drain fuel s).1) := by
  induction fuel with
  | zero => intro s hlen _ _; omega
  | succ fuel ih =>
    intro s hlen hinv halign
    by_cases hcpl : s.currentPacketLength = 0
    · have halpha : alphaBuf s = s.buf := by simp [alphaBuf, hcpl]
      rw [halpha] at halign ⊢
      by_cases h16 : 16 ≤ s.buf.length
      · obtain ⟨p, ps, hwfp, hwfs, hpre, hmagic, hlen12⟩ := alignedBuf_head halign h16
        have hmagic' : (s.buf.take 16).take 4 = magicBytes := by
          rw [List.take_take]
          simpa using hmagic
        have hlen12' : readUInt32LE (s.buf.take 16) 12 = p.payload.length :=
          (readUInt32LE_take _ _ _ (by omega)).trans hlen12
        have hreadB : readBytes s.buf 16 = some (s.buf.take 16, s.buf.drop 16) := by
          simp [readBytes, h16]
        by_cases hlen0 : p.payload.length = 0
        · -- complete header-only packet: emitted at once, loop continues
          have hloop : loopIter s =
              .cont ⟨s.buf.drop 16, 0, s.header⟩ [s.buf.take 16] := by
            rw [loopIter, if_pos hcpl, hreadB]
            simp [hmagic', hlen12', hlen0]
          have hext := alignedBuf_extract hpre hwfs (by omega)
          rw [hlen0] at hext
          have hstep : refStep s.buf =
              some (s.buf.take 16, s.buf.drop 16) := by
            rw [refStep, if_pos ⟨h16, hmagic, by rw [hlen12, hlen0]; omega⟩]
            rw [hlen12, hlen0]
          set s₂ : FramerState := ⟨s.buf.drop 16, 0, s.header⟩ with hs₂
          have halpha₂ : alphaBuf s₂ = s.buf.drop 16 := by simp [alphaBuf, hs₂]
          have hrec := ih s₂ (by simp [hs₂, List.length_drop]; omega)
            (fun h => absurd rfl h) (by rw [halpha₂]; exact hext.2.2)
          rw [halpha₂] at hrec
          obtain ⟨hrinv, hrref, hrnone, hral⟩ := hrec
          refine ⟨?_, ?_, ?_, ?_⟩
          · rw [drain, hloop]; exact hrinv
          · rw [drain, hloop]
            show refRun (fuel + 1) s.buf = _
            rw [refRun, hstep]
            simp only [hrref, List.singleton_append]
          · rw [drain, hloop]; exact hrnone
          · rw [drain, hloop]; exact hral
        · by_cases hfull : 16 + p.payload.length ≤ s.buf.length
          · -- full packet buffered: header and payload read in one pass
            have hreadP : readBytes (s.buf.drop 16) p.payload.length =
                some ((s.buf.drop 16).take p.payload.length,
                  (s.buf.drop 16).drop p.payload.length) := by
              rw [readBytes, if_pos]
              rw [List.length_drop]; omega
            have hloop : loopIter s =
                .cont ⟨(s.buf.drop 16).drop p.payload.length, 0, s.buf.take 16⟩
                  [s.buf.take 16 ++ (s.buf.drop 16).take p.payload.length] := by
              rw [loopIter, if_pos hcpl, hreadB]
              simp [hmagic', hlen12', hlen0, hreadP]
            have hext := alignedBuf_extract hpre hwfs hfull
            have htk : s.buf.take (16 + p.payload.length) =
                s.buf.take 16 ++ (s.buf.drop 16).take p.payload.length :=
              List.take_add s.buf 16 p.payload.length
            have hdr : s.buf.drop (16 + p.payload.length) =
                (s.buf.drop 16).drop p.payload.length :=
              (List.drop_drop p.payload.length 16 s.buf).symm
            have hstep : refStep s.buf =
                some (s.buf.take 16 ++ (s.buf.drop 16).take p.payload.length,
                  (s.buf.drop 16).drop p.payload.length) := by
              rw [refStep, if_pos ⟨h16, hmagic, by rw [hlen12]; omega⟩]
              rw [hlen12, htk.symm, hdr.symm]
            set s₂ : FramerState :=
              ⟨(s.buf.drop 16).drop p.payload.length, 0, s.buf.take 16⟩ with hs₂
            have halpha₂ : alphaBuf s₂ = (s.buf.drop 16).drop p.payload.length := by
              simp [alphaBuf, hs₂]
            have hrec := ih s₂
              (by simp [hs₂, List.length_drop]; omega)
              (fun h => absurd rfl h)
              (by rw [halpha₂, ← hdr]; exact hext.2.2)
            rw [halpha₂] at hrec
            obtain ⟨hrinv, hrref, hrnone, hral⟩ := hrec
            refine ⟨?_, ?_, ?_, ?_⟩
            · rw [drain, hloop]; exact hrinv
            · rw [drain, hloop]
              show refRun (fuel + 1) s.buf = _
              rw [refRun, hstep]
              simp only [hrref, List.singleton_append]
            · rw [drain, hloop]; exact hrnone
            · rw [drain, hloop]; exact hral
          · -- header consumed and saved, payload not yet buffered: suspend
            have hreadP : readBytes (s.buf.drop 16) p.payload.length = none := by
              rw [readBytes, if_neg]
              rw [List.length_drop]; omega
            have hloop : loopIter s =
                .ret ⟨s.buf.drop 16, p.payload.length, s.buf.take 16⟩ := by
              rw [loopIter, if_pos hcpl, hreadB]
              simp [hmagic', hlen12', hlen0, hreadP]
            set s₁ : FramerState :=
              ⟨s.buf.drop 16, p.payload.length, s.buf.take 16⟩ with hs₁
            have halpha₁ : alphaBuf s₁ = s.buf := by
              simp only [alphaBuf, hs₁]
              rw [if_neg hlen0]
              exact List.take_append_drop 16 s.buf
            have hstep : refStep s.buf = none := by
              rw [refStep, if_neg]
              intro hc
              rw [hlen12] at hc
              omega
            have hdrain : drain (fuel + 1) s = (s₁, []) := by
              rw [drain, hloop]
            refine ⟨?_, ?_, ?_, ?_⟩
            · rw [hdrain]
              intro _
              refine ⟨?_, hmagic', hlen12'⟩
              rw [List.length_take]; omega
            · rw [hdrain]
              show refRun (fuel + 1) s.buf = ([], alphaBuf s₁)
              rw [refRun, hstep, halpha₁]
            · rw [hdrain, halpha₁]; exact hstep
            · rw [hdrain, halpha₁]; exact halign
      · -- not even a header buffered: suspend untouched
        have hreadB : readBytes s.buf 16 = none := by
          simp [readBytes, h16]
        have hloop : loopIter s = .ret s := by
          rw [loopIter, if_pos hcpl, hreadB]
        have hstep : refStep s.buf = none := refStep_short (by omega)
        have hdrain : drain (fuel + 1) s = (s, []) := by rw [drain, hloop]
        refine ⟨?_, ?_, ?_, ?_⟩
        · rw [hdrain]; exact hinv
        · rw [hdrain]
          show refRun (fuel + 1) s.buf = ([], alphaBuf s)
          rw [refRun, hstep, halpha]
        · rw [hdrain, halpha]; exact hstep
        · rw [hdrain, halpha]; exact halign
    · -- a payload is pending from an earlier notification
      obtain ⟨hhlen, hhmagic, hhread⟩ := hinv hcpl
      have halpha : alphaBuf s = s.header ++ s.buf := by
        simp [alphaBuf, hcpl]
      rw [halpha] at halign ⊢
      have hmagicB : (s.header ++ s.buf).take 4 = magicBytes := by
        rw [List.take_append_of_le_length (by omega)]
        exact hhmagic
      have hreadB : readUInt32LE (s.header ++ s.buf) 12 = s.currentPacketLength := by
        rw [readUInt32LE_append_left _ _ _ (by omega)]
        exact hhread
      by_cases hfull : s.currentPacketLength ≤ s.buf.length
      · have hreadP : readBytes s.buf s.currentPacketLength =
            some (s.buf.take s.currentPacketLength,
              s.buf.drop s.currentPacketLength) := by
          simp [readBytes, hfull]
        have hloop : loopIter s =
            .cont ⟨s.buf.drop s.currentPacketLength, 0, s.header⟩
              [s.header ++ s.buf.take s.currentPacketLength] := by
          rw [loopIter, if_neg hcpl, hreadP]
        have htk : (s.header ++ s.buf).take (16 + s.currentPacketLength) =
            s.header ++ s.buf.take s.currentPacketLength := by
          rw [← hhlen, take_append_len]
        have hdr : (s.header ++ s.buf).drop (16 + s.currentPacketLength) =
            s.buf.drop s.currentPacketLength := by
          rw [← hhlen, drop_append_len]
        have hstep : refStep (s.header ++ s.buf) =
            some (s.header ++ s.buf.take s.currentPacketLength,
              s.buf.drop s.currentPacketLength) := by
          rw [refStep, if_pos ⟨by simp [hhlen], hmagicB, by rw [hreadB]; simp [hhlen]; omega⟩]
          rw [hreadB, htk, hdr]
        obtain ⟨p, ps, hwfp, hwfs, hpre, _, hlen12⟩ :=
          alignedBuf_head halign (by simp [hhlen])
        have hplen : p.payload.length = s.currentPacketLength := by
          rw [← hlen12, hreadB]
        have hext := alignedBuf_extract hpre hwfs
          (by rw [hplen]; simp [hhlen]; omega)
        rw [hplen] at hext
        set s₂ : FramerState :=
          ⟨s.buf.drop s.currentPacketLength, 0, s.header⟩ with hs₂
        have halpha₂ : alphaBuf s₂ = s.buf.drop s.currentPacketLength := by
          simp [alphaBuf, hs₂]
        have hrec := ih s₂
          (by simp [hs₂, List.length_drop]; omega)
          (fun h => absurd rfl h)
          (by rw [halpha₂, ← hdr]; exact hext.2.2)
        rw [halpha₂] at hrec
        obtain ⟨hrinv, hrref, hrnone, hral⟩ := hrec
        refine ⟨?_, ?_, ?_, ?_⟩
        · rw [drain, hloop]; exact hrinv
        · rw [drain, hloop]
          show refRun (fuel + 1) (s.header ++ s.buf) = _
          rw [refRun, hstep]
          simp only [hrref, List.singleton_append]
        · rw [drain, hloop]; exact hrnone
        · rw [drain, hloop]; exact hral
      · -- payload still incomplete: suspend untouched
        have hreadP : readBytes s.buf s.currentPacketLength = none := by
          simp [readBytes]
          omega
        have hloop : loopIter s = .ret s := by
          rw [loopIter, if_neg hcpl, hreadP]
        have hstep : refStep (s.header ++ s.buf) = none := by
          rw [refStep, if_neg]
          intro hc
          rw [hreadB] at hc
          obtain ⟨-, -, hc3⟩ := hc
          rw [List.length_append, hhlen] at hc3
          omega
        have hdrain : drain (fuel + 1) s = (s, []) := by rw [drain, hloop]
        refine ⟨?_, ?_, ?_, ?_⟩
        · rw [hdrain]; exact hinv
        · rw [hdrain]
          show refRun (fuel + 1) (s.header ++ s.buf) = ([], alphaBuf s)
          rw [refRun, hstep, halpha]
        · rw [hdrain, halpha]; exact hstep
        · rw [hdrain, halpha]; exact halign

/-- On a buffer aligned with a well-formed stream, the reference machine
extracts exactly the wire forms of an initial segment of the packets and
keeps a buffer aligned with the remaining ones; no byte is lost. -/
theorem refRun_aligned (fuel : Nat) :
    ∀ (b : List Nat) (qs : List Packet),
    (∀ p ∈ qs, WFPacket p) → IsPre b (encodeStream qs) →
    ∃ qs₁ qs₂, qs = qs₁ ++ qs₂ ∧
      (refRun fuel b).1 = qs₁.map encodePacket ∧
      IsPre (refRun fuel b).2 (encodeStream qs₂) ∧
      b = encodeStream qs₁ ++ (refRun fuel b).2 := by
  induction fuel with
  | zero =>
    intro b qs hwf hpre
    exact ⟨[], qs, rfl, rfl, hpre, rfl⟩
  | succ fuel ih =>
    intro b qs hwf hpre
    by_cases hc : 16 ≤ b.length ∧ b.take 4 = magicBytes ∧
        16 + readUInt32LE b 12 ≤ b.length
    · obtain ⟨p, ps, hwfp, hwfs, hpre', hmagic, hlen12⟩ :=
        alignedBuf_head ⟨qs, hwf, hpre⟩ hc.1
      have hqs : qs ≠ [] := by
        rintro rfl
        obtain ⟨t, ht⟩ := hpre
        rw [encodeStream_nil] at ht
        have := (List.append_eq_nil.mp ht).1
        rw [this] at hc
        simp at hc
      -- identify the head packet of qs itself
      match qs, hwf, hpre with
      | q :: rest, hwf, hpre =>
        rw [encodeStream_cons] at hpre
        have hq12 : readUInt32LE b 12 = q.payload.length := by
          have hS : readUInt32LE (encodePacket q ++ encodeStream rest) 12 =
              q.payload.length :=
            encodePacket_readLength q _ (hwf q (by simp)).2.2
          have hb : readUInt32LE (encodePacket q ++ encodeStream rest) 12 =
              readUInt32LE b 12 :=
            readUInt32LE_eq_of_isPre hpre (by omega)
          rw [← hb, hS]
        have hfull : 16 + q.payload.length ≤ b.length := by
          rw [← hq12]; exact hc.2.2
        have hext := alignedBuf_extract hpre (fun r hr => hwf r (by simp [hr])) hfull
        rw [refRun, refStep, if_pos hc]
        simp only [hq12]
        obtain ⟨qs₁, qs₂, hsplit, hout, hpre₂, hbytes⟩ :=
          ih (b.drop (16 + q.payload.length)) rest
            (fun r hr => hwf r (by simp [hr])) hext.2.1
        refine ⟨q :: qs₁, qs₂, by simp [hsplit], ?_, hpre₂, ?_⟩
        · simp only [List.map_cons]
          rw [hext.1, hout]
        · rw [encodeStream_cons, List.append_assoc, ← hbytes, ← hext.1]
          exact (List.take_append_drop _ b).symm
    · rw [refRun, refStep, if_neg hc]
      exact ⟨[], qs, rfl, rfl, hpre, rfl⟩

/-- The reference machine cannot be stuck on the full wire form of a
nonempty well-formed packet list. -/
theorem refStep_encodeStream {qs : List Packet} (hwf : ∀ p ∈ qs, WFPacket p)
    (hnone : refStep (encodeStream qs) = none) : qs = [] := by
  match qs with
  | [] => rfl
  | q :: rest =>
    exfalso
    rw [encodeStream_cons, refStep, if_pos] at hnone
    · exact Option.noConfusion hnone
    · refine ⟨by simp; omega, encodePacket_take_four q _, ?_⟩
      rw [encodePacket_readLength q _ (hwf q (by simp)).2.2]
      simp

/-- Processing chunk by chunk: the framer emits exactly the wire forms of
an initial segment of the stream and buffers the rest. -/
theorem feedAll_aligned :
    ∀ (chunks : List (List Nat)) (s : FramerState) (qs : List Packet),
    FramerInv s → refStep (alphaBuf s) = none → (∀ p ∈ qs, WFPacket p) →
    alphaBuf s ++ chunks.flatten = encodeStream qs →
    ∃ qs₁ qs₂, qs = qs₁ ++ qs₂ ∧
      (feedAll s chunks).2 = qs₁.map encodePacket ∧
      alphaBuf (feedAll s chunks).1 = encodeStream qs₂ ∧
      refStep (alphaBuf (feedAll s chunks).1) = none := by
  intro chunks
  induction chunks with
  | nil =>
    intro s qs hinv hnone hwf heq
    refine ⟨[], qs, rfl, rfl, ?_, ?_⟩
    · simpa using heq
    · exact hnone
  | cons c cs ih =>
    intro s qs hinv hnone hwf heq
    set sc : FramerState := { s with buf := s.buf ++ c } with hsc
    have halc : alphaBuf sc = alphaBuf s ++ c := by
      by_cases hcpl : s.currentPacketLength = 0
      · simp [alphaBuf, hsc, hcpl]
      · simp [alphaBuf, hsc, hcpl]
    have hinvc : FramerInv sc := by
      intro h
      exact hinv h
    have hprec : IsPre (alphaBuf sc) (encodeStream qs) := by
      refine ⟨cs.flatten, ?_⟩
      rw [halc, List.append_assoc]
      exact heq
    have hls := lockstep (s.buf.length + c.length + 17) sc
      (by simp [hsc]) hinvc ⟨qs, hwf, hprec⟩
    obtain ⟨hrinv, hrref, hrnone, -⟩ := hls
    obtain ⟨qs₁a, qs₂a, hsplit, hout, hpre₂, hbytes⟩ :=
      refRun_aligned (s.buf.length + c.length + 17) (alphaBuf sc) qs hwf hprec
    have hfeed : feed s c = drain (s.buf.length + c.length + 17) sc := rfl
    rw [hrref] at hout hpre₂ hbytes
    have hwf₂ : ∀ p ∈ qs₂a, WFPacket p := by
      intro p hp
      exact hwf p (by rw [hsplit]; simp [hp])
    have heq₂ : alphaBuf (feed s c).1 ++ cs.flatten = encodeStream qs₂a := by
      have h1 : alphaBuf s ++ (c :: cs).flatten = encodeStream qs₁a ++ encodeStream qs₂a := by
        rw [heq, hsplit, encodeStream_append]
      have h2 : alphaBuf s ++ (c :: cs).flatten =
          encodeStream qs₁a ++ (alphaBuf (feed s c).1 ++ cs.flatten) := by
        calc alphaBuf s ++ (c :: cs).flatten
            = (alphaBuf s ++ c) ++ cs.flatten := by
              simp [List.append_assoc]
          _ = (encodeStream qs₁a ++ alphaBuf (feed s c).1) ++ cs.flatten := by
              rw [← halc, hbytes, hfeed]
          _ = encodeStream qs₁a ++ (alphaBuf (feed s c).1 ++ cs.flatten) := by
              rw [List.append_assoc]
      rw [h2] at h1
      exact List.append_cancel_left h1
    obtain ⟨qs₁b, qs₂, hsplit₂, hout₂, halpha₂, hnone₂⟩ :=
      ih (feed s c).1 qs₂a (hfeed ▸ hrinv) (hfeed ▸ hrnone) hwf₂ heq₂
    refine ⟨qs₁a ++ qs₁b, qs₂, ?_, ?_, halpha₂, hnone₂⟩
    · rw [hsplit, hsplit₂, List.append_assoc]
    · show ((feedAll (feed s c).1 cs).1, (feed s c).2 ++ (feedAll (feed s c).1 cs).2).2 =
        (qs₁a ++ qs₁b).map encodePacket
      simp only [List.map_append]
      rw [← hout₂, ← hout, hfeed]

/-- Over any chunking of a full well-formed stream, the framer emits
exactly the wire forms of all packets. -/
theorem processNotifications_eq (ps : List Packet) (hwf : ∀ p ∈ ps, WFPacket p)
    (chunks : List (List Nat)) (hchunks : chunks.flatten = encodeStream ps) :
    processNotifications chunks = ps.map encodePacket := by
  have h0 : alphaBuf initFramer ++ chunks.flatten = encodeStream ps := by
    simpa [alphaBuf, initFramer] using hchunks
  obtain ⟨qs₁, qs₂, hsplit, hout, halpha, hnone⟩ :=
    feedAll_aligned chunks initFramer ps
      (fun h => absurd rfl h) (by simp [alphaBuf, initFramer, refStep_short]) hwf h0
  have hqs₂ : qs₂ = [] := by
    refine refStep_encodeStream ?_ (halpha ▸ hnone)
    intro p hp
    exact hwf p (by rw [hsplit]; simp [hp])
  rw [hqs₂, List.append_nil] at hsplit
  rw [processNotifications, hout, hsplit]

theorem map_decode_encode (l : List Packet) (hl : ∀ p ∈ l, WFPacket p) :
    (l.map encodePacket).map decodePacket = l := by
  induction l with
  | nil => simp
  | cons a t iht =>
    simp only [List.map_cons]
    rw [decodePacket_encodePacket a (hl a (by simp)),
      iht (fun p hp => hl p (by simp [hp]))]

/-- C1: for every valid packet stream (a concatenation of well-formed
16-byte-header packets) and every way of splitting that stream into chunks
delivered across any number of data-arrival notifications, the framer
emits the same ordered sequence of decoded packets as when the whole
stream is delivered in one notification (namely all of them, in order),
draining every fully buffered packet within each notification before
suspending. -/
theorem framer_chunk_invariance (ps : List Packet) (hwf : ∀ p ∈ ps, WFPacket p)
    (chunks : List (List Nat)) (hchunks : chunks.flatten = encodeStream ps) :
    processNotifications chunks = processNotifications [encodeStream ps] ∧
    (processNotifications chunks).map decodePacket = ps := by
  have h1 := processNotifications_eq ps hwf chunks hchunks
  have h2 := processNotifications_eq ps hwf [encodeStream ps] (by simp)
  refine ⟨by rw [h1, h2], ?_⟩
  rw [h1, map_decode_encode ps hwf]

def c1Packet₁ : Packet := ⟨0, 1, [3, 0, 0, 0]⟩

def c1Packet₂ : Packet := ⟨2, 5, []⟩

def c1Stream : List Nat := encodeStream [c1Packet₁, c1Packet₂]

/-- Witness for C1: a concrete two-packet stream split mid-header at byte 7
is decoded identically to the stream delivered whole. -/
theorem framer_chunk_invariance_witness :
    processNotifications [c1Stream.take 7, c1Stream.drop 7] =
      processNotifications [c1Stream] ∧
    (processNotifications [c1Stream.take 7, c1Stream.drop 7]).map decodePacket =
      [c1Packet₁, c1Packet₂] :=
  framer_chunk_invariance [c1Packet₁, c1Packet₂] (by decide)
    [c1Stream.take 7, c1Stream.drop 7] (by decide)

/-- A notification whose first 16 bytes are a corrupt header (magic is not
ORGB), followed by a complete well-formed header-only packet. -/
def badMagicChunk : List Nat :=
  List.replicate 16 0 ++ encodePacket ⟨0, 1, []⟩

/-- C4 evaluation: on a corrupt-magic header the readable handler consumes
the 16 corrupt bytes and returns without failing the connection and without
scanning for the next magic occurrence; the complete valid packet already
buffered in the same notification is never emitted — the framer silently
stops consuming. -/
theorem framer_bad_magic_stalls :
    processNotifications [badMagicChunk] = [] ∧
    (feedAll initFramer [badMagicChunk]).1.buf = encodePacket ⟨0, 1, []⟩ := by
  constructor
  · rfl
  · rfl

/-! ## Request/response correlator

Model of the module-level `resolve` function (`src/client.ts` 488-504).
Command identifiers are an externally supplied registry (`utils.command`);
the reserved broadcast code `utils.command.deviceListUpdated` enters as the
parameter `dlu`. -/

/-- A pending request in `this.resolver` (a `ResolveObject`): the matching
key and a tag standing for the completion handle (the stored `resolve`
callback). -/
structure PendingRequest where
  commandId : Nat
  deviceId : Nat
  tag : Nat
  deriving DecidableEq, Repr

/-- One call of `resolve(buffer)`: decode the header; a `deviceListUpdated`
broadcast only emits the event; otherwise, when the queue is nonempty, find
the first entry matching `(deviceId, commandId)`, remove it and fulfill its
completion with `buffer.slice(16)`; when `findIndex` misses, return with the
queue untouched.  Result: new queue, fulfilled completion (tag and payload)
if any, and whether the `deviceListUpdated` event was emitted. -/
def resolvePacket (dlu : Nat) (queue : List PendingRequest) (buffer : List Nat) :
    List PendingRequest × Option (Nat × List Nat) × Bool :=
  let deviceId := readUInt32LE buffer 4
  let commandId := readUInt32LE buffer 8
  if commandId = dlu then
    (queue, none, true)
  else if queue.length ≠ 0 then
    let index := queue.findIdx fun r =>
      (r.deviceId == deviceId) && (r.commandId == commandId)
    match queue[index]? with
    | none => (queue, none, false)
    | some r => (queue.eraseIdx index, some (r.tag, buffer.drop 16), false)
  else
    (queue, none, false)

theorem findIdx_all_false {α : Type} (q : List α) (p : α → Bool)
    (h : ∀ r ∈ q, p r = false) : q.findIdx p = q.length := by
  induction q with
  | nil => simp
  | cons a t ih =>
    rw [List.findIdx_cons]
    rw [h a (by simp)]
    simp [ih (fun r hr => h r (by simp [hr]))]

theorem findIdx_of_first {α : Type} (q : List α) (p : α → Bool) :
    ∀ (i : Nat) (hi : i < q.length), p (q.get ⟨i, hi⟩) = true →
    (∀ (j : Nat) (hj : j < i), p (q.get ⟨j, by omega⟩) = false) →
    q.findIdx p = i := by
  induction q with
  | nil => intro i hi; simp at hi
  | cons a t ih =>
    intro i hi htrue hbefore
    match i with
    | 0 =>
      rw [List.findIdx_cons]
      simp only [List.get] at htrue
      rw [htrue]
      rfl
    | i + 1 =>
      have ha : p a = false := hbefore 0 (by omega)
      rw [List.findIdx_cons, ha]
      simp only [cond_false]
      have := ih i (by simpa using hi) (by simpa using htrue)
        (fun j hj => by
          have := hbefore (j + 1) (by omega)
          simpa using this)
      rw [this]

/-- C5: for every non-broadcast packet and every pending-request queue, the
first (oldest-registered) entry whose deviceId and commandId both match the
packet is removed from the queue and its completion is fulfilled with the
payload with the 16-byte header stripped; when no entry matches, the queue
is left unchanged and the packet is dropped. -/
theorem correlator_matching (dlu : Nat) (q : List PendingRequest) (b : List Nat)
    (hnb : readUInt32LE b 8 ≠ dlu) :
    ((∀ r ∈ q, ¬(r.deviceId = readUInt32LE b 4 ∧ r.commandId = readUInt32LE b 8)) →
      resolvePacket dlu q b = (q, none, false)) ∧
    (∀ (i : Nat) (hi : i < q.length),
      (q.get ⟨i, hi⟩).deviceId = readUInt32LE b 4 →
      (q.get ⟨i, hi⟩).commandId = readUInt32LE b 8 →
      (∀ (j : Nat) (hj : j < i),
        ¬((q.get ⟨j, by omega⟩).deviceId = readUInt32LE b 4 ∧
          (q.get ⟨j, by omega⟩).commandId = readUInt32LE b 8)) →
      resolvePacket dlu q b =
        (q.eraseIdx i, some ((q.get ⟨i, hi⟩).tag, b.drop 16), false)) := by
  constructor
  · intro hnone
    by_cases hq : q.length ≠ 0
    · have hidx : (q.findIdx fun r =>
          (r.deviceId == readUInt32LE b 4) && (r.commandId == readUInt32LE b 8)) =
          q.length := by
        apply findIdx_all_false
        intro r hr
        have := hnone r hr
        simp only [Bool.and_eq_false_iff, beq_eq_false_iff_ne]
        by_cases h1 : r.deviceId = readUInt32LE b 4
        · right; intro h2; exact this ⟨h1, h2⟩
        · left; exact h1
      simp only [resolvePacket]
      rw [hidx, if_neg hnb, if_pos hq, List.getElem?_eq_none (le_refl _)]
    · simp only [resolvePacket]
      rw [if_neg hnb, if_neg hq]
  · intro i hi h1 h2 hbefore
    have hidx : (q.findIdx fun r =>
        (r.deviceId == readUInt32LE b 4) && (r.commandId == readUInt32LE b 8)) = i := by
      apply findIdx_of_first q _ i hi
      · simp only [List.get_eq_getElem] at h1 h2
        simp [h1, h2]
      · intro j hj
        have hb := hbefore j hj
        simp only [List.get_eq_getElem] at hb
        simp only [Bool.and_eq_false_iff, beq_eq_false_iff_ne,
          List.get_eq_getElem]
        by_cases hd : q[j].deviceId = readUInt32LE b 4
        · right; intro hc; exact hb ⟨hd, hc⟩
        · left; exact hd
    simp only [resolvePacket]
    rw [hidx, if_neg hnb, if_pos (by omega), List.getElem?_eq_getElem hi]
    rfl

/-- Witness for C5 at concrete inputs: a queue with a non-matching entry in
front of two matching ones; the oldest matching entry is removed and
fulfilled with the header-stripped payload, and a fully non-matching queue
is left untouched. -/
theorem correlator_matching_witness :
    (resolvePacket 100 [⟨7, 0, 11⟩] (encodePacket ⟨0, 1, [9]⟩) =
      ([⟨7, 0, 11⟩], none, false)) ∧
    (resolvePacket 100 [⟨7, 0, 11⟩, ⟨1, 0, 12⟩, ⟨1, 0, 13⟩]
        (encodePacket ⟨0, 1, [9]⟩) =
      ([⟨7, 0, 11⟩, ⟨1, 0, 13⟩], some (12, [9]), false)) := by
  constructor
  · exact (correlator_matching 100 [⟨7, 0, 11⟩] (encodePacket ⟨0, 1, [9]⟩)
      (by decide)).1 (by decide)
  · exact (correlator_matching 100 [⟨7, 0, 11⟩, ⟨1, 0, 12⟩, ⟨1, 0, 13⟩]
      (encodePacket ⟨0, 1, [9]⟩) (by decide)).2 1 (by decide) (by decide)
      (by decide) (by decide)

/-- Behavior of `resolve` itself on a broadcast packet: when it is invoked,
it emits the `deviceListUpdated` event and leaves the queue untouched, with
no completion fulfilled. -/
theorem correlator_broadcast (dlu : Nat) (q : List PendingRequest)
    (b : List Nat) (h : readUInt32LE b 8 = dlu) :
    resolvePacket dlu q b = (q, none, true) := by
  unfold resolvePacket
  rw [if_pos h]

/-- The hand-off of a completed packet buffer from the readable handler to
`resolve`: both call sites are guarded by resolver non-emptiness
(`if (this.resolver.length)` on line 103 for header-only packets and
`if (this.resolver[0])` on line 117 for packets with payload), so with an
empty queue the packet is consumed without `resolve` ever running. -/
def dispatchPacket (dlu : Nat) (queue : List PendingRequest) (buffer : List Nat) :
    List PendingRequest × Option (Nat × List Nat) × Bool :=
  if queue.length ≠ 0 then resolvePacket dlu queue buffer
  else (queue, none, false)

/-- C6 counterexample: a broadcast packet (commandId equal to the reserved
code) arriving while the pending-request queue is empty is dropped by the
readable handler without the `deviceListUpdated` event being emitted —
`resolve` is never called. -/
theorem correlator_broadcast_empty_queue :
    readUInt32LE (encodePacket ⟨0, 100, []⟩) 8 = 100 ∧
    dispatchPacket 100 [] (encodePacket ⟨0, 100, []⟩) = ([], none, false) := by
  constructor
  · rfl
  · rfl

/-- C6 amended: for every packet whose commandId equals the reserved
broadcast code: when at least one pending request is registered, the packet
is routed to the always-on notification channel (the `deviceListUpdated`
event is emitted) and the pending-request queue is left untouched with no
completion fulfilled; when the pending-request queue is empty at the time
the packet arrives, the packet is consumed and dropped and the event is NOT
emitted, because both hand-offs to `resolve` are guarded by resolver
non-emptiness. -/
theorem correlator_broadcast_dispatch (dlu : Nat) (q : List PendingRequest)
    (b : List Nat) (h : readUInt32LE b 8 = dlu) :
    (q ≠ [] → dispatchPacket dlu q b = (q, none, true)) ∧
    (q = [] → dispatchPacket dlu q b = (q, none, false)) := by
  constructor
  · intro hq
    unfold dispatchPacket
    rw [if_pos (by simpa using hq)]
    exact correlator_broadcast dlu q b h
  · intro hq
    unfold dispatchPacket
    rw [if_neg (by simp [hq])]

/-- Witness for C6 amended: a concrete broadcast packet with one pending
request registered emits the event and leaves the queue untouched. -/
theorem correlator_broadcast_dispatch_witness :
    readUInt32LE (encodePacket ⟨0, 100, []⟩) 8 = 100 ∧
    dispatchPacket 100 [⟨1, 0, 7⟩] (encodePacket ⟨0, 100, []⟩) =
      ([⟨1, 0, 7⟩], none, true) :=
  ⟨by decide,
    (correlator_broadcast_dispatch 100 [⟨1, 0, 7⟩] (encodePacket ⟨0, 100, []⟩)
      (by decide)).1 (by decide)⟩

/-! ## Client state and disconnect -/

structure ClientState where
  isConnected : Bool
  resolver : List PendingRequest
  deriving DecidableEq, Repr

/-- Model of `Client.disconnect` (`src/client.ts` 148-152): after
`socket.end()`, sets `isConnected = false` and empties the resolver queue.
No stored completion is invoked (neither fulfilled nor rejected). -/
def disconnect (_s : ClientState) : ClientState :=
  { isConnected := false, resolver := [] }

/-- C10: disconnect leaves `isConnected` false and the pending-request
queue empty; every previously registered request is discarded, and since
the queue is empty afterwards no later packet can fulfill any of their
completions (and nothing rejects them). -/
theorem disconnect_discards (s : ClientState) :
    (disconnect s).isConnected = false ∧ (disconnect s).resolver = [] ∧
    ∀ (dlu : Nat) (b : List Nat),
      (resolvePacket dlu (disconnect s).resolver b).2.1 = none ∧
      (resolvePacket dlu (disconnect s).resolver b).1 = [] := by
  refine ⟨rfl, rfl, ?_⟩
  intro dlu b
  unfold resolvePacket disconnect
  by_cases h : readUInt32LE b 8 = dlu
  · rw [if_pos h]
    exact ⟨rfl, rfl⟩
  · rw [if_neg h]
    simp

/-! ## Protocol-version negotiation

Model of the negotiation block of `Client.connect` (`src/client.ts`
126-142), the constructor defaults (line 30) and
`CLIENT_PROTOCOL_VERSION` (line 15). -/

/-- The built-in maximum protocol version of the library. -/
def CLIENT_PROTOCOL_VERSION : Nat := 5

/-- Connection settings: `forceProtocolVersion` is `some v` when the key is
present on the settings object with value `v`, and `none` when absent. -/
structure Settings where
  forceProtocolVersion : Option Nat
  deriving DecidableEq, Repr

/-- The constructor default `settings = {forceProtocolVersion: 0}`
(`src/client.ts` 30): the key is present with value 0. -/
def defaultSettings : Settings := ⟨some 0⟩

/-- JS truthiness of `this.settings.forceProtocolVersion`: an absent key
reads as `undefined`, and both `undefined` and `0` are falsy. -/
def forceTruthy (s : Settings) : Bool := s.forceProtocolVersion.getD 0 != 0

/-- The client-side version used in the negotiation
(`("forceProtocolVersion" in this.settings) ? this.settings.forceProtocolVersion
: CLIENT_PROTOCOL_VERSION`, lines 134 and 193). -/
def clientVersion (s : Settings) : Nat :=
  match s.forceProtocolVersion with
  | some v => v
  | none => CLIENT_PROTOCOL_VERSION

/-- The negotiated `this.protocolVersion` (lines 126-136).  `serverResp` is
`some v` when the version response arrives before the timeout and `none` on
timeout; the timeout path rejects with `0` and the rejection value is
swallowed by `.catch(_ => _)`, so a timeout makes
`serverProtocolVersion = 0`. -/
def negotiatedVersion (s : Settings) (serverResp : Option Nat) : Nat :=
  let serverProtocolVersion := serverResp.getD 0
  if forceTruthy s ∧ serverProtocolVersion = 0 then
    s.forceProtocolVersion.getD 0
  else if serverProtocolVersion < clientVersion s then
    serverProtocolVersion
  else
    clientVersion s

/-- Outcome of the negotiation region of `connect`: lines 126-142 contain no
throw and no rejection path, so `connect` always proceeds to
`setClientName` and emits the connect event with the negotiated version. -/
def negotiationOutcome (s : Settings) (serverResp : Option Nat) :
    Except String Nat :=
  Except.ok (negotiatedVersion s serverResp)

/-- C2 evaluation at the failing input: under the constructor default
settings, a server response of 3 negotiates effective version 0, not
min(3, 5) = 3 as claimed — the default settings object carries the key
`forceProtocolVersion = 0`, which the key-presence test of line 134 selects
as the preferred version instead of the built-in maximum 5. -/
theorem negotiation_default_not_min :
    negotiatedVersion defaultSettings (some 3) = 0 ∧
    min 3 CLIENT_PROTOCOL_VERSION = 3 := by
  constructor
  · rfl
  · rfl

/-- C3 counterexample: with the default settings (no forced override
configured — the stored value 0 is falsy) and a timed-out negotiation,
`connect` does not fail: the outcome is success with version 0. -/
theorem negotiation_timeout_no_failure :
    negotiationOutcome defaultSettings none = Except.ok 0 ∧
    ∀ e : String, negotiationOutcome defaultSettings none ≠ Except.error e := by
  refine ⟨rfl, ?_⟩
  intro e h
  exact Except.noConfusion h

/-- C3 amended: when the negotiation round trip times out and no truthy
forced override is configured, `connect` completes successfully with
effective protocol version 0 (the server version is treated as 0, and the
minimum against the client version is 0); no connection-setup failure is
surfaced to the caller. -/
theorem negotiation_timeout_degraded (s : Settings)
    (hforce : forceTruthy s = false) :
    negotiationOutcome s none = Except.ok 0 := by
  unfold negotiationOutcome negotiatedVersion
  rw [if_neg (by simp [hforce])]
  simp only [Option.getD_none]
  by_cases h : 0 < clientVersion s
  · rw [if_pos h]
  · rw [if_neg h]
    simp
    omega

/-- Witness for C3 amended at the constructor default settings. -/
theorem negotiation_timeout_degraded_witness :
    forceTruthy defaultSettings = false ∧
    negotiationOutcome defaultSettings none = Except.ok 0 :=
  ⟨by decide, negotiation_timeout_degraded defaultSettings (by decide)⟩

/-! ## Binary codec: strings and colors -/

/-- Model of `readString` (`src/device.ts` 338-342): read a `u16` length,
take the text bytes `buffer.slice(offset + 2, offset + length + 1)` (the
`length - 1` bytes preceding the null terminator), and report
`length + 2` bytes consumed.  Text is kept as its byte list. -/
def readString (buffer : List Nat) (offset : Nat) : List Nat × Nat :=
  let length := readUInt16LE buffer offset
  ((buffer.drop (offset + 2)).take (length - 1), length + 2)

/-- Model of `Client.pack_string` (`src/client.ts` 395-397): `u16`
(length + 1), the text bytes, a null terminator. -/
def pack_string (s : List Nat) : List Nat := le16 (s.length + 1) ++ s ++ [0]

@[simp] theorem pack_string_length (s : List Nat) :
    (pack_string s).length = s.length + 3 := by
  simp [pack_string]
  omega

structure RGBColor where
  red : Nat
  green : Nat
  blue : Nat
  deriving DecidableEq, Repr

/-- Model of `readColor` (`src/device.ts` 350-355): three `u8` reads. -/
def readColor (buffer : List Nat) (offset : Nat) : RGBColor :=
  { red := buffer.getD offset 0
    green := buffer.getD (offset + 1) 0
    blue := buffer.getD (offset + 2) 0 }

/-- The color-reading loop of `readModes` (`src/device.ts` 206-209): one
color per 4 bytes. -/
def readColorList (buffer : List Nat) (offset : Nat) : Nat → List RGBColor
  | 0 => []
  | n + 1 => readColor buffer offset :: readColorList buffer (offset + 4) n

/-- Model of `Client.pack_color_list` (`src/client.ts` 385-391): `u16`
count, then `<BBBx>` per color. -/
def pack_color_list (colors : List RGBColor) : List Nat :=
  le16 colors.length ++
    (colors.map fun c => [c.red % 256, c.green % 256, c.blue % 256, 0]).flatten

/-- C7: for every buffer containing a well-formed encoded string at a given
offset (u16 length `L`, then the `L - 1` text bytes, then a null
terminator), string decode returns exactly the text bytes and reports
`L + 2` bytes consumed. -/
theorem readString_spec (pre text rest : List Nat) (L : Nat)
    (hL : text.length = L - 1) (hL1 : 1 ≤ L) (hL16 : L < 2 ^ 16) :
    readString (pre ++ (le16 L ++ (text ++ (0 :: rest)))) pre.length =
      (text, L + 2) := by
  have hlen : readUInt16LE (pre ++ (le16 L ++ (text ++ (0 :: rest)))) pre.length = L := by
    rw [readUInt16LE_drop, List.drop_left, readUInt16LE_le16_append _ _ hL16]
  have htext : ((pre ++ (le16 L ++ (text ++ (0 :: rest)))).drop (pre.length + 2)).take
      (L - 1) = text := by
    have hshape : pre ++ (le16 L ++ (text ++ (0 :: rest))) =
        (pre ++ le16 L) ++ (text ++ (0 :: rest)) := by
      rw [List.append_assoc]
    have hl : (pre ++ le16 L).length = pre.length + 2 := by simp
    rw [hshape, ← hl, List.drop_left, ← hL, List.take_left]
  rw [readString]
  rw [hlen, htext]

/-- Witness for C7 at the spec example: length 5 followed by the bytes of
`abcd` and a null terminator decodes to `abcd` and consumes 7 bytes. -/
theorem readString_spec_witness :
    readString ([] ++ (le16 5 ++ ([97, 98, 99, 100] ++ (0 :: [])))) 0 =
      ([97, 98, 99, 100], 7) := by
  have h := readString_spec [] [97, 98, 99, 100] [] 5 (by decide) (by decide)
    (by decide)
  simpa using h

/-! ## Binary codec: modes

Model of one iteration of the `readModes` loop (`src/device.ts` 118-237)
and of the mode encoding of `sendMode` for protocol version at least 3
(`src/client.ts` 447-483). -/

/-- Binary digit count, fuel-structured so that it reduces by kernel
computation. -/
def binDigits : Nat → Nat → Nat
  | 0, _ => 0
  | fuel + 1, n => if n = 0 then 0 else binDigits fuel (n / 2) + 1

theorem binDigits_le : ∀ (fuel n k : Nat), n ≤ fuel → n < 2 ^ k →
    binDigits fuel n ≤ k := by
  intro fuel
  induction fuel with
  | zero =>
    intro n k hn _
    have : n = 0 := by omega
    simp [binDigits]
  | succ fuel ih =>
    intro n k hn hk
    rw [binDigits]
    by_cases h0 : n = 0
    · rw [if_pos h0]
      omega
    · rw [if_neg h0]
      match k with
      | 0 => omega
      | k + 1 =>
        have h2 : n / 2 < 2 ^ k := by
          have : (2 : Nat) ^ (k + 1) = 2 * 2 ^ k := by ring
          omega
        have := ih (n / 2) k (by omega) h2
        omega

/-- Length of `n.toString(2)` in JS: the number of binary digits, and 1 for
zero. -/
def jsBinLength (n : Nat) : Nat := if n = 0 then 1 else binDigits n n

/-- The capability tags, in bit order (`src/device.ts` 168). -/
def modeFlagNames : List String :=
  ["speed", "directionLR", "directionUD", "directionHV", "brightness",
   "perLedColor", "modeSpecificColor", "randomColor", "manualSave",
   "automaticSave"]

/-- Result of the flag-driven post-processing block of `readModes`
(`src/device.ts` 164-203). -/
structure FlagAdjust where
  flagList : List String
  speedMin : Nat
  speedMax : Nat
  speed : Nat
  brightnessMin : Option Nat
  brightnessMax : Option Nat
  brightness : Option Nat
  direction : Nat
  colorLength : Nat
  colorMin : Nat
  colorMax : Nat
  deriving DecidableEq, Repr

/-- The flag-driven post-processing of `readModes` (`src/device.ts`
164-203).  `Array(flags.length - flagcheck_str.length)` throws a
`RangeError` when the binary form of the flags is longer than the ten
defined names, hence `none` in that case.  Otherwise `flagcheck` is the
reversed zero-padded binary string, so its entry `i` is set exactly when
bit `i` of the flags is set (entries beyond the binary length are holes,
skipped by `forEach` and falsy under `Number`); the tag list collects the
set bits in order, the synthetic `direction` tag is appended when any
direction bit is set, and unset capability bits force their fields to
zero.  The zeroing of the version-gated brightness fields applies only for
protocol version at least 3 (below 3 those variables stay undefined). -/
def decodeFlagData (protocolVersion modeFlags speedMin speedMax speed : Nat)
    (brightnessMin brightnessMax brightness : Option Nat)
    (direction colorLength colorMin colorMax : Nat) : Option FlagAdjust :=
  if 10 < jsBinLength modeFlags then none
  else some
    { flagList :=
        ((List.range 10).filterMap fun i =>
          if modeFlags.testBit i then some (modeFlagNames.getD i "") else none) ++
        (if modeFlags.testBit 1 ∨ modeFlags.testBit 2 ∨ modeFlags.testBit 3 then
          ["direction"] else [])
      speedMin := if modeFlags.testBit 0 then speedMin else 0
      speedMax := if modeFlags.testBit 0 then speedMax else 0
      speed := if modeFlags.testBit 0 then speed else 0
      brightnessMin :=
        if 3 ≤ protocolVersion ∧ ¬modeFlags.testBit 4 then some 0 else brightnessMin
      brightnessMax :=
        if 3 ≤ protocolVersion ∧ ¬modeFlags.testBit 4 then some 0 else brightnessMax
      brightness :=
        if 3 ≤ protocolVersion ∧ ¬modeFlags.testBit 4 then some 0 else brightness
      direction :=
        if modeFlags.testBit 1 ∨ modeFlags.testBit 2 ∨ modeFlags.testBit 3 then
          direction else 0
      colorLength :=
        if ¬(modeFlags.testBit 5 ∨ modeFlags.testBit 6 ∨ modeFlags.testBit 7) ∨
            colorLength = 0 then 0 else colorLength
      colorMin :=
        if ¬(modeFlags.testBit 5 ∨ modeFlags.testBit 6 ∨ modeFlags.testBit 7) ∨
            colorLength = 0 then 0 else colorMin
      colorMax :=
        if ¬(modeFlags.testBit 5 ∨ modeFlags.testBit 6 ∨ modeFlags.testBit 7) ∨
            colorLength = 0 then 0 else colorMax }

/-- A decoded mode, mirroring the `Mode` object built by `readModes`
(`src/device.ts` 212-233).  The version-gated brightness fields are
`Option`, `none` when the protocol version is below 3.  The name is kept as
its byte list. -/
structure ModeRec where
  id : Nat
  name : List Nat
  value : Int
  flags : Nat
  speedMin : Nat
  speedMax : Nat
  brightnessMin : Option Nat
  brightnessMax : Option Nat
  colorMin : Nat
  colorMax : Nat
  speed : Nat
  brightness : Option Nat
  direction : Nat
  colorMode : Nat
  colors : List RGBColor
  flagList : List String
  deriving DecidableEq, Repr

/-- One iteration of the `readModes` loop (`src/device.ts` 123-236):
sequential reads with the version-conditional offset bookkeeping of the
source, the flag post-processing, then `colorLength` colors; returns the
mode and the offset after it, or `none` when the flag processing throws. -/
def readMode (buffer : List Nat) (offset : Nat) (modeIndex protocolVersion : Nat) :
    Option (ModeRec × Nat) :=
  let rs := readString buffer offset
  let o₁ := offset + rs.2
  let modeValue := readInt32LE buffer o₁
  let o₂ := o₁ + 4
  let modeFlags := readUInt32LE buffer o₂
  let speedMin := readUInt32LE buffer (o₂ + 4)
  let speedMax := readUInt32LE buffer (o₂ + 8)
  let brightnessMin :=
    if 3 ≤ protocolVersion then some (readUInt32LE buffer (o₂ + 12)) else none
  let brightnessMax :=
    if 3 ≤ protocolVersion then some (readUInt32LE buffer (o₂ + 16)) else none
  let o₃ := if 3 ≤ protocolVersion then o₂ + 8 else o₂
  let colorMin := readUInt32LE buffer (o₃ + 12)
  let colorMax := readUInt32LE buffer (o₃ + 16)
  let speed := readUInt32LE buffer (o₃ + 20)
  let brightness :=
    if 3 ≤ protocolVersion then some (readUInt32LE buffer (o₃ + 24)) else none
  let o₄ := if 3 ≤ protocolVersion then o₃ + 4 else o₃
  let direction := readUInt32LE buffer (o₄ + 24)
  let colorMode := readUInt32LE buffer (o₄ + 28)
  let o₅ := o₄ + 32
  let colorLength := readUInt16LE buffer o₅
  let o₆ := o₅ + 2
  match decodeFlagData protocolVersion modeFlags speedMin speedMax speed
      brightnessMin brightnessMax brightness direction colorLength
      colorMin colorMax with
  | none => none
  | some adj =>
    some ({ id := modeIndex
            name := rs.1
            value := modeValue
            flags := modeFlags
            speedMin := adj.speedMin
            speedMax := adj.speedMax
            brightnessMin := adj.brightnessMin
            brightnessMax := adj.brightnessMax
            colorMin := adj.colorMin
            colorMax := adj.colorMax
            speed := adj.speed
            brightness := adj.brightness
            direction := adj.direction
            colorMode := colorMode
            colors := readColorList buffer o₆ adj.colorLength
            flagList := adj.flagList },
      o₆ + 4 * adj.colorLength)

/-- Two's-complement `u32` encoding of a signed value, as bufferpack `<I`
produces for the `value` field. -/
def le32i (v : Int) : List Nat := le32 (v % (2 ^ 32 : Int)).toNat

/-- The mode record part of the `updateMode`/`saveMode` payload built by
`sendMode` for protocol version at least 3 (`src/client.ts` 447-461 and
476-481): encoded name, the `<12I>` block `[value, flags, speedMin,
speedMax, brightnessMin, brightnessMax, colorMin, colorMax, speed,
brightness, direction, colorMode]`, then the color list.  The leading `u32`
mode id and the outer length prefix are not part of the record. -/
def encodeModeBodyV3 (m : ModeRec) : List Nat :=
  pack_string m.name ++
    (le32i m.value ++ (le32 m.flags ++ (le32 m.speedMin ++ (le32 m.speedMax ++
      (le32 (m.brightnessMin.getD 0) ++ (le32 (m.brightnessMax.getD 0) ++
      (le32 m.colorMin ++ (le32 m.colorMax ++ (le32 m.speed ++
      (le32 (m.brightness.getD 0) ++ (le32 m.direction ++ (le32 m.colorMode ++
      pack_color_list m.colors))))))))))))

/-! ## C8: flag bitfield decoding -/

/-- A mode record whose flags word has bit 10 set (value 1024). -/
def c8BadMode : ModeRec :=
  ⟨0, [], 0, 1024, 0, 0, some 0, some 0, 0, 0, 0, some 0, 0, 0, [], []⟩

/-- C8 counterexample: for the 32-bit flags value 1024 (bit 10 set, all ten
defined bits clear) mode decode produces no flagList at all: the binary
form has 11 digits, so `Array(flags.length - flagcheck_str.length)` is
`Array(-1)` and the decode throws a RangeError. -/
theorem mode_flags_1024_throws :
    readMode (encodeModeBodyV3 c8BadMode) 0 0 3 = none ∧
    c8BadMode.flags < 2 ^ 32 := by
  constructor
  · rfl
  · decide

/-- C8 amended: for every flags value below 2^10 (larger values make the
decode throw), the decoded flagList contains the tag of bit k exactly when
bit k is set; for flags = 1 the flagList is exactly `speed`, the speed
bounds pass through unmodified, direction is forced to 0 and the color
count is forced to 0 (with colorMin and colorMax) regardless of the wire
color count. -/
theorem mode_flag_decoding (v flags sMin sMax sp : Nat)
    (bMin bMax br : Option Nat) (dir cLen cMin cMax : Nat)
    (hflags : flags < 2 ^ 10) :
    ∃ adj, decodeFlagData v flags sMin sMax sp bMin bMax br dir cLen cMin cMax =
        some adj ∧
      (∀ k, k < 10 → (modeFlagNames.getD k "" ∈ adj.flagList ↔ flags.testBit k)) ∧
      (flags = 1 →
        adj.flagList = ["speed"] ∧ adj.speedMin = sMin ∧ adj.speedMax = sMax ∧
        adj.direction = 0 ∧ adj.colorLength = 0 ∧ adj.colorMin = 0 ∧
        adj.colorMax = 0) := by
  have hbin : ¬(10 < jsBinLength flags) := by
    unfold jsBinLength
    by_cases h : flags = 0
    · simp [h]
    · rw [if_neg h]
      have := binDigits_le flags flags 10 (le_refl flags) hflags
      omega
  unfold decodeFlagData
  rw [if_neg hbin]
  refine ⟨_, rfl, ?_, ?_⟩
  · intro k hk
    constructor
    · intro hmem
      rcases List.mem_append.mp hmem with hm | hm
      · obtain ⟨i, hi, hif⟩ := List.mem_filterMap.mp hm
        rw [List.mem_range] at hi
        by_cases hb : flags.testBit i
        · rw [if_pos hb] at hif
          have hnames : ∀ i' < 10, ∀ k' < 10,
              modeFlagNames.getD i' "" = modeFlagNames.getD k' "" → i' = k' := by
            decide
          have hik : i = k := hnames i hi k hk (Option.some.inj hif)
          rw [← hik]
          exact hb
        · rw [if_neg hb] at hif
          exact absurd hif (by simp)
      · have hdir : ∀ k' < 10, modeFlagNames.getD k' "" ≠ "direction" := by decide
        by_cases hc : flags.testBit 1 ∨ flags.testBit 2 ∨ flags.testBit 3
        · rw [if_pos hc] at hm
          exact absurd (List.mem_singleton.mp hm) (hdir k hk)
        · rw [if_neg hc] at hm
          simp at hm
    · intro hb
      refine List.mem_append.mpr (Or.inl (List.mem_filterMap.mpr ⟨k, ?_, ?_⟩))
      · exact List.mem_range.mpr hk
      · rw [if_pos hb]
  · intro h1
    subst h1
    refine ⟨?_, ?_, ?_, ?_, ?_, ?_, ?_⟩
    · show ((List.range 10).filterMap fun i =>
          if (1 : Nat).testBit i then some (modeFlagNames.getD i "") else none) ++
        (if (1 : Nat).testBit 1 ∨ (1 : Nat).testBit 2 ∨ (1 : Nat).testBit 3 then
          ["direction"] else []) = ["speed"]
      decide
    · show (if (1 : Nat).testBit 0 then sMin else 0) = sMin
      rw [if_pos (by decide)]
    · show (if (1 : Nat).testBit 0 then sMax else 0) = sMax
      rw [if_pos (by decide)]
    · show (if (1 : Nat).testBit 1 ∨ (1 : Nat).testBit 2 ∨ (1 : Nat).testBit 3 then
          dir else 0) = 0
      rw [if_neg (by decide)]
    · show (if ¬((1 : Nat).testBit 5 ∨ (1 : Nat).testBit 6 ∨ (1 : Nat).testBit 7) ∨
          cLen = 0 then 0 else cLen) = 0
      rw [if_pos (Or.inl (by decide))]
    · show (if ¬((1 : Nat).testBit 5 ∨ (1 : Nat).testBit 6 ∨ (1 : Nat).testBit 7) ∨
          cLen = 0 then 0 else cMin) = 0
      rw [if_pos (Or.inl (by decide))]
    · show (if ¬((1 : Nat).testBit 5 ∨ (1 : Nat).testBit 6 ∨ (1 : Nat).testBit 7) ∨
          cLen = 0 then 0 else cMax) = 0
      rw [if_pos (Or.inl (by decide))]

/-- Witness for C8 amended at flags = 1 with concrete field values. -/
theorem mode_flag_decoding_witness :
    (1 : Nat) < 2 ^ 10 ∧
    ∃ adj, decodeFlagData 3 1 7 9 5 (some 1) (some 2) (some 3) 6 4 11 12 =
        some adj ∧
      (∀ k, k < 10 → (modeFlagNames.getD k "" ∈ adj.flagList ↔ (1 : Nat).testBit k)) ∧
      ((1 : Nat) = 1 →
        adj.flagList = ["speed"] ∧ adj.speedMin = 7 ∧ adj.speedMax = 9 ∧
        adj.direction = 0 ∧ adj.colorLength = 0 ∧ adj.colorMin = 0 ∧
        adj.colorMax = 0) :=
  ⟨by decide, mode_flag_decoding 3 1 7 9 5 (some 1) (some 2) (some 3) 6 4 11 12
    (by decide)⟩

/-! ## C9: mode codec round trip at protocol version at least 3 -/

theorem drop_le32_four (x : Nat) (rest : List Nat) :
    (le32 x ++ rest).drop 4 = rest := by
  rw [show (4 : Nat) = (le32 x).length from rfl, List.drop_left]

theorem drop_le32i_four (v : Int) (rest : List Nat) :
    (le32i v ++ rest).drop 4 = rest := by
  rw [show (4 : Nat) = (le32i v).length from rfl, List.drop_left]

theorem readInt32LE_le32i (v : Int) (rest : List Nat) (h1 : -(2 ^ 31) ≤ v)
    (h2 : v < 2 ^ 31) : readInt32LE (le32i v ++ rest) 0 = v := by
  have h0 : (0 : Int) ≤ v % 2 ^ 32 := Int.emod_nonneg v (by norm_num)
  have hlt : v % 2 ^ 32 < 2 ^ 32 := Int.emod_lt_of_pos v (by norm_num)
  have hn : ((v % 2 ^ 32).toNat : Int) = v % 2 ^ 32 := Int.toNat_of_nonneg h0
  rw [readInt32LE, le32i, readUInt32LE_le32_append _ _ (by omega)]
  unfold toSigned32
  have hmod : v % 2 ^ 32 = v ∨ v % 2 ^ 32 = v + 2 ^ 32 := by omega
  split <;> omega

theorem jsBinLength_le_ten {flags : Nat} (h : flags < 2 ^ 10) :
    ¬10 < jsBinLength flags := by
  unfold jsBinLength
  by_cases h0 : flags = 0
  · simp [h0]
  · rw [if_neg h0]
    have := binDigits_le flags flags 10 (le_refl flags) h
    omega

@[simp] theorem le32i_length (v : Int) : (le32i v).length = 4 := rfl

theorem colorBytes_length (cs : List RGBColor) :
    ((cs.map fun c => [c.red % 256, c.green % 256, c.blue % 256, 0]).flatten).length =
      4 * cs.length := by
  induction cs with
  | nil => simp
  | cons c t ih =>
    simp only [List.map_cons, List.flatten_cons, List.length_append, ih,
      List.length_cons]
    simp
    omega

theorem pack_color_list_length (cs : List RGBColor) :
    (pack_color_list cs).length = 2 + 4 * cs.length := by
  unfold pack_color_list
  rw [List.length_append, le16_length, colorBytes_length]

theorem readColorList_spec :
    ∀ (cs : List RGBColor) (buffer : List Nat) (o : Nat) (rest : List Nat),
    (∀ c ∈ cs, c.red < 256 ∧ c.green < 256 ∧ c.blue < 256) →
    buffer.drop o =
      (cs.map fun c => [c.red % 256, c.green % 256, c.blue % 256, 0]).flatten ++
        rest →
    readColorList buffer o cs.length = cs := by
  intro cs
  induction cs with
  | nil => intro buffer o rest _ _; rfl
  | cons c t ih =>
    intro buffer o rest hb hdrop
    simp only [List.map_cons, List.flatten_cons, List.append_assoc] at hdrop
    obtain ⟨hr, hg, hbl⟩ := hb c (by simp)
    have hcol : readColor buffer o = c := by
      have g0 : buffer.getD o 0 = c.red % 256 := by
        have e : buffer.getD o 0 = (buffer.drop o).getD 0 0 :=
          (getD_drop buffer o 0).symm
        rw [e, hdrop]
        rfl
      have g1 : buffer.getD (o + 1) 0 = c.green % 256 := by
        have e : buffer.getD (o + 1) 0 = (buffer.drop o).getD 1 0 :=
          (getD_drop buffer o 1).symm
        rw [e, hdrop]
        rfl
      have g2 : buffer.getD (o + 2) 0 = c.blue % 256 := by
        have e : buffer.getD (o + 2) 0 = (buffer.drop o).getD 2 0 :=
          (getD_drop buffer o 2).symm
        rw [e, hdrop]
        rfl
      rw [readColor, g0, g1, g2]
      rw [Nat.mod_eq_of_lt hr, Nat.mod_eq_of_lt hg, Nat.mod_eq_of_lt hbl]
    have hrec : readColorList buffer (o + 4) t.length = t := by
      apply ih buffer (o + 4) rest (fun x hx => hb x (by simp [hx]))
      have e : buffer.drop (o + 4) = (buffer.drop o).drop 4 :=
        (List.drop_drop 4 o buffer).symm
      rw [e, hdrop]
      rfl
    show readColor buffer o :: readColorList buffer (o + 4) t.length = c :: t
    rw [hcol, hrec]

/-- A mode as `readModes` produces it at protocol version at least 3: the
flag-forcing rules of `src/device.ts` 164-203 already hold of its fields,
the version-gated brightness fields are present, and the color bounds are
canonical. -/
def CanonicalModeV3 (m : ModeRec) : Prop :=
  m.flags < 2 ^ 10 ∧
  m.flagList =
    ((List.range 10).filterMap fun i =>
      if m.flags.testBit i then some (modeFlagNames.getD i "") else none) ++
    (if m.flags.testBit 1 ∨ m.flags.testBit 2 ∨ m.flags.testBit 3 then
      ["direction"] else []) ∧
  m.brightnessMin.isSome ∧ m.brightnessMax.isSome ∧ m.brightness.isSome ∧
  (¬m.flags.testBit 0 → m.speedMin = 0 ∧ m.speedMax = 0 ∧ m.speed = 0) ∧
  (¬m.flags.testBit 4 → m.brightnessMin = some 0 ∧ m.brightnessMax = some 0 ∧
    m.brightness = some 0) ∧
  (¬(m.flags.testBit 1 ∨ m.flags.testBit 2 ∨ m.flags.testBit 3) →
    m.direction = 0) ∧
  (¬(m.flags.testBit 5 ∨ m.flags.testBit 6 ∨ m.flags.testBit 7) ∨ m.colors = [] →
    m.colors = [] ∧ m.colorMin = 0 ∧ m.colorMax = 0)

instance (m : ModeRec) : Decidable (CanonicalModeV3 m) := by
  unfold CanonicalModeV3
  infer_instance

/-- Field values representable in the wire encoding. -/
def ModeInRange (m : ModeRec) : Prop :=
  m.name.length + 1 < 2 ^ 16 ∧ -(2 ^ 31) ≤ m.value ∧ m.value < 2 ^ 31 ∧
  m.speedMin < 2 ^ 32 ∧ m.speedMax < 2 ^ 32 ∧ m.speed < 2 ^ 32 ∧
  m.brightnessMin.getD 0 < 2 ^ 32 ∧ m.brightnessMax.getD 0 < 2 ^ 32 ∧
  m.brightness.getD 0 < 2 ^ 32 ∧ m.colorMin < 2 ^ 32 ∧ m.colorMax < 2 ^ 32 ∧
  m.direction < 2 ^ 32 ∧ m.colorMode < 2 ^ 32 ∧ m.colors.length < 2 ^ 16 ∧
  (∀ c ∈ m.colors, c.red < 256 ∧ c.green < 256 ∧ c.blue < 256)

instance (m : ModeRec) : Decidable (ModeInRange m) := by
  unfold ModeInRange
  infer_instance

/-- C9 amended: for every canonical Mode — one satisfying the flag-forcing
invariants that `readModes` establishes, with version-gated brightness
fields present and wire-representable field values — encoding at protocol
version at least 3 (the 12-field `u32` block of `sendMode`) and decoding
the encoded record reproduces every field exactly, including
brightnessMin, brightnessMax and brightness, and consumes exactly the
encoded record. -/
theorem mode_roundtrip_v3 (m : ModeRec) (v : Nat) (hv : 3 ≤ v)
    (hcanon : CanonicalModeV3 m) (hrange : ModeInRange m) :
    readMode (encodeModeBodyV3 m) 0 m.id v =
      some (m, (encodeModeBodyV3 m).length) := by
  obtain ⟨hflags10, hflaglist, hbmS, hbMS, hbrS, hspeed0, hbright0, hdir0,
    hcolor0⟩ := hcanon
  obtain ⟨hname16, hvlo, hvhi, hsm, hsM, hsp, hbm32, hbM32, hbr32, hcm, hcM,
    hdir32, hcmode32, hclen16, hcbytes⟩ := hrange
  obtain ⟨bm, hbm⟩ := Option.isSome_iff_exists.mp hbmS
  obtain ⟨bM, hbM⟩ := Option.isSome_iff_exists.mp hbMS
  obtain ⟨br, hbr⟩ := Option.isSome_iff_exists.mp hbrS
  set B := encodeModeBodyV3 m with hB
  have d0 : B.drop (m.name.length + 3) = le32i m.value ++ (le32 m.flags ++ (le32 m.speedMin ++ (le32 m.speedMax ++ (le32 (m.brightnessMin.getD 0) ++ (le32 (m.brightnessMax.getD 0) ++ (le32 m.colorMin ++ (le32 m.colorMax ++ (le32 m.speed ++ (le32 (m.brightness.getD 0) ++ (le32 m.direction ++ (le32 m.colorMode ++ (pack_color_list m.colors)))))))))))) := by
    rw [hB, encodeModeBodyV3, ← pack_string_length m.name, List.drop_left]
  have d1 : B.drop (m.name.length + 7) = le32 m.flags ++ (le32 m.speedMin ++ (le32 m.speedMax ++ (le32 (m.brightnessMin.getD 0) ++ (le32 (m.brightnessMax.getD 0) ++ (le32 m.colorMin ++ (le32 m.colorMax ++ (le32 m.speed ++ (le32 (m.brightness.getD 0) ++ (le32 m.direction ++ (le32 m.colorMode ++ (pack_color_list m.colors))))))))))) := by
    have e : B.drop (m.name.length + 7) = (B.drop (m.name.length + 3)).drop 4 :=
      (List.drop_drop 4 (m.name.length + 3) B).symm
    rw [e, d0, drop_le32i_four]
  have d2 : B.drop (m.name.length + 11) = le32 m.speedMin ++ (le32 m.speedMax ++ (le32 (m.brightnessMin.getD 0) ++ (le32 (m.brightnessMax.getD 0) ++ (le32 m.colorMin ++ (le32 m.colorMax ++ (le32 m.speed ++ (le32 (m.brightness.getD 0) ++ (le32 m.direction ++ (le32 m.colorMode ++ (pack_color_list m.colors)))))))))) := by
    have e : B.drop (m.name.length + 11) = (B.drop (m.name.length + 7)).drop 4 :=
      (List.drop_drop 4 (m.name.length + 7) B).symm
    rw [e, d1, drop_le32_four]
  have d3 : B.drop (m.name.length + 15) = le32 m.speedMax ++ (le32 (m.brightnessMin.getD 0) ++ (le32 (m.brightnessMax.getD 0) ++ (le32 m.colorMin ++ (le32 m.colorMax ++ (le32 m.speed ++ (le32 (m.brightness.getD 0) ++ (le32 m.direction ++ (le32 m.colorMode ++ (pack_color_list m.colors))))))))) := by
    have e : B.drop (m.name.length + 15) = (B.drop (m.name.length + 11)).drop 4 :=
      (List.drop_drop 4 (m.name.length + 11) B).symm
    rw [e, d2, drop_le32_four]
  have d4 : B.drop (m.name.length + 19) = le32 (m.brightnessMin.getD 0) ++ (le32 (m.brightnessMax.getD 0) ++ (le32 m.colorMin ++ (le32 m.colorMax ++ (le32 m.speed ++ (le32 (m.brightness.getD 0) ++ (le32 m.direction ++ (le32 m.colorMode ++ (pack_color_list m.colors)))))))) := by
    have e : B.drop (m.name.length + 19) = (B.drop (m.name.length + 15)).drop 4 :=
      (List.drop_drop 4 (m.name.length + 15) B).symm
    rw [e, d3, drop_le32_four]
  have d5 : B.drop (m.name.length + 23) = le32 (m.brightnessMax.getD 0) ++ (le32 m.colorMin ++ (le32 m.colorMax ++ (le32 m.speed ++ (le32 (m.brightness.getD 0) ++ (le32 m.direction ++ (le32 m.colorMode ++ (pack_color_list m.colors))))))) := by
    have e : B.drop (m.name.length + 23) = (B.drop (m.name.length + 19)).drop 4 :=
      (List.drop_drop 4 (m.name.length + 19) B).symm
    rw [e, d4, drop_le32_four]
  have d6 : B.drop (m.name.length + 27) = le32 m.colorMin ++ (le32 m.colorMax ++ (le32 m.speed ++ (le32 (m.brightness.getD 0) ++ (le32 m.direction ++ (le32 m.colorMode ++ (pack_color_list m.colors)))))) := by
    have e : B.drop (m.name.length + 27) = (B.drop (m.name.length + 23)).drop 4 :=
      (List.drop_drop 4 (m.name.length + 23) B).symm
    rw [e, d5, drop_le32_four]
  have d7 : B.drop (m.name.length + 31) = le32 m.colorMax ++ (le32 m.speed ++ (le32 (m.brightness.getD 0) ++ (le32 m.direction ++ (le32 m.colorMode ++ (pack_color_list m.colors))))) := by
    have e : B.drop (m.name.length + 31) = (B.drop (m.name.length + 27)).drop 4 :=
      (List.drop_drop 4 (m.name.length + 27) B).symm
    rw [e, d6, drop_le32_four]
  have d8 : B.drop (m.name.length + 35) = le32 m.speed ++ (le32 (m.brightness.getD 0) ++ (le32 m.direction ++ (le32 m.colorMode ++ (pack_color_list m.colors)))) := by
    have e : B.drop (m.name.length + 35) = (B.drop (m.name.length + 31)).drop 4 :=
      (List.drop_drop 4 (m.name.length + 31) B).symm
    rw [e, d7, drop_le32_four]
  have d9 : B.drop (m.name.length + 39) = le32 (m.brightness.getD 0) ++ (le32 m.direction ++ (le32 m.colorMode ++ (pack_color_list m.colors))) := by
    have e : B.drop (m.name.length + 39) = (B.drop (m.name.length + 35)).drop 4 :=
      (List.drop_drop 4 (m.name.length + 35) B).symm
    rw [e, d8, drop_le32_four]
  have d10 : B.drop (m.name.length + 43) = le32 m.direction ++ (le32 m.colorMode ++ (pack_color_list m.colors)) := by
    have e : B.drop (m.name.length + 43) = (B.drop (m.name.length + 39)).drop 4 :=
      (List.drop_drop 4 (m.name.length + 39) B).symm
    rw [e, d9, drop_le32_four]
  have d11 : B.drop (m.name.length + 47) = le32 m.colorMode ++ (pack_color_list m.colors) := by
    have e : B.drop (m.name.length + 47) = (B.drop (m.name.length + 43)).drop 4 :=
      (List.drop_drop 4 (m.name.length + 43) B).symm
    rw [e, d10, drop_le32_four]
  have d12 : B.drop (m.name.length + 51) = pack_color_list m.colors := by
    have e : B.drop (m.name.length + 51) = (B.drop (m.name.length + 47)).drop 4 :=
      (List.drop_drop 4 (m.name.length + 47) B).symm
    rw [e, d11, drop_le32_four]
  have hrs : readString B 0 = (m.name, m.name.length + 3) := by
    have h16 : readUInt16LE B 0 = m.name.length + 1 := by
      rw [hB, encodeModeBodyV3, pack_string]
      simp only [List.append_assoc]
      rw [readUInt16LE_le16_append _ _ hname16]
    have htext : (B.drop (0 + 2)).take (m.name.length + 1 - 1) = m.name := by
      have e : B.drop (0 + 2) = m.name ++ ([0] ++ (le32i m.value ++ (le32 m.flags ++ (le32 m.speedMin ++ (le32 m.speedMax ++ (le32 (m.brightnessMin.getD 0) ++ (le32 (m.brightnessMax.getD 0) ++ (le32 m.colorMin ++ (le32 m.colorMax ++ (le32 m.speed ++ (le32 (m.brightness.getD 0) ++ (le32 m.direction ++ (le32 m.colorMode ++ (pack_color_list m.colors)))))))))))))) := by
        rw [hB, encodeModeBodyV3, pack_string]
        simp only [List.append_assoc]
        rw [show (0 + 2 : Nat) = (le16 (m.name.length + 1)).length from rfl,
          List.drop_left]
      rw [e]
      have e2 : m.name.length + 1 - 1 = m.name.length := rfl
      rw [e2, List.take_left]
    simp only [readString]
    rw [h16, htext]
  have r_val : readInt32LE B (m.name.length + 3) = m.value := by
    rw [readInt32LE, readUInt32LE_drop, d0, ← readInt32LE]
    exact readInt32LE_le32i m.value _ hvlo hvhi
  have r_flags : readUInt32LE B (m.name.length + 7) = m.flags := by
    rw [readUInt32LE_drop, d1, readUInt32LE_le32_append _ _ (by omega)]
  have r_sMin : readUInt32LE B (m.name.length + 11) = m.speedMin := by
    rw [readUInt32LE_drop, d2, readUInt32LE_le32_append _ _ (by omega)]
  have r_sMax : readUInt32LE B (m.name.length + 15) = m.speedMax := by
    rw [readUInt32LE_drop, d3, readUInt32LE_le32_append _ _ (by omega)]
  have r_bMin : readUInt32LE B (m.name.length + 19) = m.brightnessMin.getD 0 := by
    rw [readUInt32LE_drop, d4, readUInt32LE_le32_append _ _ (by omega)]
  have r_bMax : readUInt32LE B (m.name.length + 23) = m.brightnessMax.getD 0 := by
    rw [readUInt32LE_drop, d5, readUInt32LE_le32_append _ _ (by omega)]
  have r_cMin : readUInt32LE B (m.name.length + 27) = m.colorMin := by
    rw [readUInt32LE_drop, d6, readUInt32LE_le32_append _ _ (by omega)]
  have r_cMax : readUInt32LE B (m.name.length + 31) = m.colorMax := by
    rw [readUInt32LE_drop, d7, readUInt32LE_le32_append _ _ (by omega)]
  have r_speed : readUInt32LE B (m.name.length + 35) = m.speed := by
    rw [readUInt32LE_drop, d8, readUInt32LE_le32_append _ _ (by omega)]
  have r_br : readUInt32LE B (m.name.length + 39) = m.brightness.getD 0 := by
    rw [readUInt32LE_drop, d9, readUInt32LE_le32_append _ _ (by omega)]
  have r_dir : readUInt32LE B (m.name.length + 43) = m.direction := by
    rw [readUInt32LE_drop, d10, readUInt32LE_le32_append _ _ (by omega)]
  have r_cMode : readUInt32LE B (m.name.length + 47) = m.colorMode := by
    rw [readUInt32LE_drop, d11, readUInt32LE_le32_append _ _ (by omega)]
  have r_cLen : readUInt16LE B (m.name.length + 51) = m.colors.length := by
    rw [readUInt16LE_drop, d12, pack_color_list]
    rw [readUInt16LE_le16_append _ _ hclen16]
  have d13 : B.drop (m.name.length + 53) =
      (m.colors.map fun c => [c.red % 256, c.green % 256, c.blue % 256, 0]).flatten ++
        [] := by
    have e : B.drop (m.name.length + 53) = (B.drop (m.name.length + 51)).drop 2 :=
      (List.drop_drop 2 (m.name.length + 51) B).symm
    rw [e, d12, pack_color_list]
    rw [show (2 : Nat) = (le16 m.colors.length).length from rfl, List.drop_left,
      List.append_nil]
  have r_colors : readColorList B (m.name.length + 53) m.colors.length =
      m.colors :=
    readColorList_spec m.colors B (m.name.length + 53) [] hcbytes d13
  have hsome_bm : some (m.brightnessMin.getD 0) = m.brightnessMin := by
    rw [hbm]; rfl
  have hsome_bM : some (m.brightnessMax.getD 0) = m.brightnessMax := by
    rw [hbM]; rfl
  have hsome_br : some (m.brightness.getD 0) = m.brightness := by
    rw [hbr]; rfl
  have hadj : decodeFlagData v m.flags m.speedMin m.speedMax m.speed
      m.brightnessMin m.brightnessMax m.brightness m.direction m.colors.length
      m.colorMin m.colorMax =
      some ⟨m.flagList, m.speedMin, m.speedMax, m.speed, m.brightnessMin,
        m.brightnessMax, m.brightness, m.direction, m.colors.length,
        m.colorMin, m.colorMax⟩ := by
    unfold decodeFlagData
    rw [if_neg (jsBinLength_le_ten hflags10)]
    congr 1
    congr 1
    · exact hflaglist.symm
    · by_cases h : m.flags.testBit 0
      · rw [if_pos h]
      · rw [if_neg h, (hspeed0 h).1]
    · by_cases h : m.flags.testBit 0
      · rw [if_pos h]
      · rw [if_neg h, (hspeed0 h).2.1]
    · by_cases h : m.flags.testBit 0
      · rw [if_pos h]
      · rw [if_neg h, (hspeed0 h).2.2]
    · by_cases h : m.flags.testBit 4
      · rw [if_neg (by simp [h])]
      · rw [if_pos ⟨hv, h⟩, (hbright0 h).1]
    · by_cases h : m.flags.testBit 4
      · rw [if_neg (by simp [h])]
      · rw [if_pos ⟨hv, h⟩, (hbright0 h).2.1]
    · by_cases h : m.flags.testBit 4
      · rw [if_neg (by simp [h])]
      · rw [if_pos ⟨hv, h⟩, (hbright0 h).2.2]
    · by_cases h : m.flags.testBit 1 ∨ m.flags.testBit 2 ∨ m.flags.testBit 3
      · rw [if_pos h]
      · rw [if_neg h, hdir0 h]
    · by_cases h : ¬(m.flags.testBit 5 ∨ m.flags.testBit 6 ∨ m.flags.testBit 7) ∨
          m.colors.length = 0
      · rw [if_pos h]
        have := hcolor0 (by
          rcases h with h | h
          · exact Or.inl h
          · exact Or.inr (List.length_eq_zero.mp h))
        rw [this.1]
        rfl
      · rw [if_neg h]
    · by_cases h : ¬(m.flags.testBit 5 ∨ m.flags.testBit 6 ∨ m.flags.testBit 7) ∨
          m.colors.length = 0
      · rw [if_pos h]
        exact (hcolor0 (by
          rcases h with h | h
          · exact Or.inl h
          · exact Or.inr (List.length_eq_zero.mp h))).2.1.symm
      · rw [if_neg h]
    · by_cases h : ¬(m.flags.testBit 5 ∨ m.flags.testBit 6 ∨ m.flags.testBit 7) ∨
          m.colors.length = 0
      · rw [if_pos h]
        exact (hcolor0 (by
          rcases h with h | h
          · exact Or.inl h
          · exact Or.inr (List.length_eq_zero.mp h))).2.2.symm
      · rw [if_neg h]
  have hlen : B.length = m.name.length + 53 + 4 * m.colors.length := by
    rw [hB, encodeModeBodyV3]
    simp only [List.length_append, pack_string_length, le32_length,
      le32i_length, pack_color_list_length]
    omega
  simp only [readMode, hrs, if_pos hv]
  norm_num
  rw [r_val, r_flags, r_sMin, r_sMax, r_bMin, r_bMax, r_cMin, r_cMax, r_speed,
    r_br, r_dir, r_cMode, r_cLen, hsome_bm, hsome_bM, hsome_br]
  simp only [hadj]
  rw [r_colors, hlen]


/-- A mode violating the canonical flag invariants: the speed bit (bit 0)
is clear but the speed field is 1. -/
def c9NonCanonical : ModeRec :=
  ⟨0, [], 0, 0, 0, 0, some 0, some 0, 0, 0, 1, some 0, 0, 0, [], []⟩

/-- C9 counterexample: round-trip identity fails for a Mode that does not
satisfy the decoder flag-forcing invariants: with flags = 0 and speed = 1,
decoding the version-3 encoding forces speed to 0, so not every field is
reproduced. -/
theorem mode_roundtrip_fails_noncanonical :
    (readMode (encodeModeBodyV3 c9NonCanonical) 0 c9NonCanonical.id 3).map
        (fun r => r.1.speed) = some 0 ∧
    c9NonCanonical.speed = 1 := by
  constructor
  · rfl
  · rfl

/-- A concrete canonical mode: flags 0b0000110011 (speed, directionLR,
brightness, perLedColor), two colors. -/
def c9CanonicalMode : ModeRec :=
  ⟨2, [65, 66], -5, 51, 10, 20, some 1, some 9, 1, 4, 15, some 5, 2, 3,
    [⟨1, 2, 3⟩, ⟨4, 5, 6⟩],
    ["speed", "directionLR", "brightness", "perLedColor", "direction"]⟩

/-- Witness for C9 amended at a concrete canonical mode. -/
theorem mode_roundtrip_v3_witness :
    (3 ≤ 3 ∧ CanonicalModeV3 c9CanonicalMode ∧ ModeInRange c9CanonicalMode) ∧
    readMode (encodeModeBodyV3 c9CanonicalMode) 0 c9CanonicalMode.id 3 =
      some (c9CanonicalMode, (encodeModeBodyV3 c9CanonicalMode).length) :=
  ⟨⟨by decide, by decide, by decide⟩,
    mode_roundtrip_v3 c9CanonicalMode 3 (by decide) (by decide) (by decide)⟩

end OpenRGB
